import Mathlib

/-!
Verification development for the MoltMine authoritative voxel-world server.

The JavaScript sources are shallowly embedded as follows:
* JS numbers are modeled as `ℚ` (the arithmetic used by the server is
  +, -, *, /, floor, min, max and comparisons, all exact on rationals);
  integer-valued quantities use `ℤ`/`ℕ` with the JS coercions written out.
* The ambient functions `Math.sqrt`, `Math.cos`, `Math.sin` and the
  nondeterministic `Math.random` / `randomUUID` are passed in explicitly
  as oracle parameters, so every definition stays computable; theorems
  that need `sqrt` to behave like a square root state that as a hypothesis.
* `Uint8Array` chunk data is modeled as `List ℕ` with writes reduced
  mod 256 (the typed-array truncation); `Map`/`Set` become association
  lists with first-match lookup; the filesystem of the persistence layer
  becomes an association list from filename to byte list.
* Stateful methods become explicit state-passing functions; WebSocket
  sends and broadcasts become an emitted message list.
-/

namespace MoltMine

/-! ## Block registry (shared/blocks.js) -/

/-- Behaviour flag bits of the block registry. -/
def SOLID : ℕ := 1
def TRANSPARENT : ℕ := 2
def LIQUID : ℕ := 4
def EMISSIVE : ℕ := 8
def MINEABLE : ℕ := 16
def PLACEABLE : ℕ := 32

/-- Metadata record of one block type, as built by `def(id, name, color, flags, drop)`. -/
structure BlockDef where
  id : ℕ
  name : String
  color : ℕ
  flags : ℕ
  drop : ℕ
deriving Repr, DecidableEq

/-- Block ids (shared/blocks.js). -/
def AIR : ℕ := 0
def STONE : ℕ := 1
def DIRT : ℕ := 2
def GRASS : ℕ := 3
def SAND : ℕ := 4
def WATER : ℕ := 5
def BEDROCK : ℕ := 6
def GRAVEL : ℕ := 7
def SNOW : ℕ := 8
def ICE : ℕ := 9
def SANDSTONE : ℕ := 10
def OAK_LOG : ℕ := 11
def OAK_LEAVES : ℕ := 12
def BIRCH_LOG : ℕ := 13
def BIRCH_LEAVES : ℕ := 14
def CACTUS : ℕ := 15
def CRYSTAL_LOG : ℕ := 20
def CRYSTAL_LEAVES : ℕ := 21
def MOLTIUM_ORE : ℕ := 22
def MOLTEN_STONE : ℕ := 23
def VOID_STONE : ℕ := 24
def BIO_MOSS : ℕ := 25
def PRISM_GLASS : ℕ := 26
def RED_SAND : ℕ := 27
def TEAL_GRASS : ℕ := 28
def PURPLE_GRASS : ℕ := 29
def MUSHROOM_CAP : ℕ := 30
def MUSHROOM_STEM : ℕ := 31
def COAL_ORE : ℕ := 40
def IRON_ORE : ℕ := 41
def GOLD_ORE : ℕ := 42
def DIAMOND_ORE : ℕ := 43
def OAK_PLANK : ℕ := 50
def BRICK : ℕ := 51
def COBBLESTONE : ℕ := 52
def GLASS : ℕ := 53
def WOOL_WHITE : ℕ := 54
def WOOL_RED : ℕ := 55
def WOOL_BLUE : ℕ := 56
def WOOL_GREEN : ℕ := 57
def WOOL_YELLOW : ℕ := 58
def WOOL_PURPLE : ℕ := 59
def WOOL_ORANGE : ℕ := 60
def WOOL_BLACK : ℕ := 61
def CONCRETE_WHITE : ℕ := 62
def CONCRETE_GRAY : ℕ := 63

/-- The block registry `BLOCKS`, built by the successive
`def(id, name, color, flags, drop)` calls in shared/blocks.js (drop defaults
to the block id itself when the source omits it). -/
def BLOCKS_LIST : List BlockDef :=
  [⟨0,  "Air",            0x000000, 0, 0⟩,
   ⟨1,  "Stone",          0x808080, SOLID + MINEABLE + PLACEABLE, 1⟩,
   ⟨2,  "Dirt",           0x8B6914, SOLID + MINEABLE + PLACEABLE, 2⟩,
   ⟨3,  "Grass",          0x5D9B3A, SOLID + MINEABLE + PLACEABLE, 2⟩,
   ⟨4,  "Sand",           0xE8D5A3, SOLID + MINEABLE + PLACEABLE, 4⟩,
   ⟨5,  "Water",          0x3366CC, LIQUID + TRANSPARENT, 5⟩,
   ⟨6,  "Bedrock",        0x333333, SOLID, 6⟩,
   ⟨7,  "Gravel",         0x9E9E9E, SOLID + MINEABLE + PLACEABLE, 7⟩,
   ⟨8,  "Snow",           0xF0F0FF, SOLID + MINEABLE + PLACEABLE, 8⟩,
   ⟨9,  "Ice",            0xA5D8FF, SOLID + TRANSPARENT + MINEABLE + PLACEABLE, 9⟩,
   ⟨10, "Sandstone",      0xD4B56A, SOLID + MINEABLE + PLACEABLE, 10⟩,
   ⟨11, "Oak Log",        0x9C6B30, SOLID + MINEABLE + PLACEABLE, 11⟩,
   ⟨12, "Oak Leaves",     0x3A8C27, SOLID + TRANSPARENT + MINEABLE, 12⟩,
   ⟨13, "Birch Log",      0xD5C9A1, SOLID + MINEABLE + PLACEABLE, 13⟩,
   ⟨14, "Birch Leaves",   0x6DBF55, SOLID + TRANSPARENT + MINEABLE, 14⟩,
   ⟨15, "Cactus",         0x2E8B30, SOLID + MINEABLE, 15⟩,
   ⟨20, "Crystal Trunk",  0x3A7D8C, SOLID + MINEABLE + PLACEABLE, 20⟩,
   ⟨21, "Crystal Leaves", 0x00E5FF, SOLID + TRANSPARENT + EMISSIVE + MINEABLE, 21⟩,
   ⟨22, "Moltium Ore",    0x9B30FF, SOLID + EMISSIVE + MINEABLE + PLACEABLE, 22⟩,
   ⟨23, "Molten Stone",   0xFF4500, SOLID + EMISSIVE + MINEABLE + PLACEABLE, 23⟩,
   ⟨24, "Void Stone",     0x1A1A2E, SOLID + MINEABLE + PLACEABLE, 24⟩,
   ⟨25, "Bio-Moss",       0x00FF88, SOLID + EMISSIVE + MINEABLE + PLACEABLE, 25⟩,
   ⟨26, "Prism Glass",    0xE8E8FF, SOLID + TRANSPARENT + EMISSIVE + PLACEABLE, 26⟩,
   ⟨27, "Red Sand",       0xC85A3A, SOLID + MINEABLE + PLACEABLE, 27⟩,
   ⟨28, "Teal Grass",     0x2E9E8C, SOLID + MINEABLE + PLACEABLE, 2⟩,
   ⟨29, "Purple Grass",   0x7B4DAA, SOLID + MINEABLE + PLACEABLE, 2⟩,
   ⟨30, "Mushroom Cap",   0xCC3344, SOLID + MINEABLE, 30⟩,
   ⟨31, "Mushroom Stem",  0xEDE0C8, SOLID + MINEABLE, 31⟩,
   ⟨40, "Coal Ore",       0x3B3B3B, SOLID + MINEABLE, 40⟩,
   ⟨41, "Iron Ore",       0xC8A882, SOLID + MINEABLE, 41⟩,
   ⟨42, "Gold Ore",       0xFFD700, SOLID + MINEABLE, 42⟩,
   ⟨43, "Diamond Ore",    0x55FFFF, SOLID + EMISSIVE + MINEABLE, 43⟩,
   ⟨50, "Oak Plank",      0xBA8C50, SOLID + MINEABLE + PLACEABLE, 50⟩,
   ⟨51, "Brick",          0xB35A3A, SOLID + MINEABLE + PLACEABLE, 51⟩,
   ⟨52, "Cobblestone",    0x6E6E6E, SOLID + MINEABLE + PLACEABLE, 52⟩,
   ⟨53, "Glass",          0xD4F1F9, SOLID + TRANSPARENT + PLACEABLE, 53⟩,
   ⟨54, "White Wool",     0xF0F0F0, SOLID + MINEABLE + PLACEABLE, 54⟩,
   ⟨55, "Red Wool",       0xCC3333, SOLID + MINEABLE + PLACEABLE, 55⟩,
   ⟨56, "Blue Wool",      0x3333CC, SOLID + MINEABLE + PLACEABLE, 56⟩,
   ⟨57, "Green Wool",     0x33CC33, SOLID + MINEABLE + PLACEABLE, 57⟩,
   ⟨58, "Yellow Wool",    0xCCCC33, SOLID + MINEABLE + PLACEABLE, 58⟩,
   ⟨59, "Purple Wool",    0x9933CC, SOLID + MINEABLE + PLACEABLE, 59⟩,
   ⟨60, "Orange Wool",    0xCC8833, SOLID + MINEABLE + PLACEABLE, 60⟩,
   ⟨61, "Black Wool",     0x222222, SOLID + MINEABLE + PLACEABLE, 61⟩,
   ⟨62, "White Concrete", 0xE8E8E8, SOLID + MINEABLE + PLACEABLE, 62⟩,
   ⟨63, "Gray Concrete",  0x666666, SOLID + MINEABLE + PLACEABLE, 63⟩]

/-- Lookup `BLOCKS.get(id)`. -/
def blocksGet (id : ℕ) : Option BlockDef :=
  BLOCKS_LIST.find? (fun b => b.id == id)


/-- Helper `!!(BLOCKS.get(id)?.flags & flag)`: an absent entry yields
`undefined & flag = 0`, hence `false`. -/
def hasFlag (id flag : ℕ) : Bool :=
  match blocksGet id with
  | some b => (b.flags &&& flag) != 0
  | none => false

def isSolid (id : ℕ) : Bool := hasFlag id SOLID
def isTransparent (id : ℕ) : Bool := hasFlag id TRANSPARENT
def isLiquid (id : ℕ) : Bool := hasFlag id LIQUID
def isEmissive (id : ℕ) : Bool := hasFlag id EMISSIVE
def isMineable (id : ℕ) : Bool := hasFlag id MINEABLE
def isPlaceable (id : ℕ) : Bool := hasFlag id PLACEABLE

/-! ## Biomes (shared/biomes.js) -/

/-- Biome tags (the `BIOME` string constants). -/
inductive Biome where
  | verdantPlains
  | crystalForest
  | moltenBadlands
  | frostPeaks
  | azureCoast
  | mushroomGlades
deriving Repr, DecidableEq

/-- Per-biome record of `BIOME_DATA`. -/
structure BiomeDef where
  name : String
  surface : ℕ
  subsoil : ℕ
  heightBase : ℚ
  heightAmp : ℚ
  treeDensity : ℚ
  treeLog : Option ℕ
  treeLeaf : Option ℕ
  treeMinH : ℕ
  treeMaxH : ℕ
  grassTint : ℕ
deriving Repr, DecidableEq

/-- The `BIOME_DATA` table. -/
def BIOME_DATA : Biome → BiomeDef
  | .verdantPlains =>
    ⟨"Verdant Plains", GRASS, DIRT, 22, 6, 0.008, some OAK_LOG, some OAK_LEAVES, 4, 7, 0x5D9B3A⟩
  | .crystalForest =>
    ⟨"Crystal Forest", TEAL_GRASS, DIRT, 24, 10, 0.025, some CRYSTAL_LOG, some CRYSTAL_LEAVES, 5, 10, 0x2E9E8C⟩
  | .moltenBadlands =>
    ⟨"Molten Badlands", RED_SAND, MOLTEN_STONE, 20, 14, 0, none, none, 0, 0, 0xC85A3A⟩
  | .frostPeaks =>
    ⟨"Frost Peaks", SNOW, STONE, 30, 22, 0.004, some BIRCH_LOG, some BIRCH_LEAVES, 3, 6, 0xB0C4DE⟩
  | .azureCoast =>
    ⟨"Azure Coast", SAND, SANDSTONE, 16, 4, 0.003, some OAK_LOG, some OAK_LEAVES, 5, 8, 0xE8D5A3⟩
  | .mushroomGlades =>
    ⟨"Mushroom Glades", PURPLE_GRASS, DIRT, 20, 4, 0.015, some MUSHROOM_STEM, some MUSHROOM_CAP, 4, 9, 0x7B4DAA⟩

/-- Biome decision table `selectBiome(temperature, moisture)`, exactly the
if-chain of shared/biomes.js. -/
def selectBiome (temperature moisture : ℚ) : Biome :=
  if temperature < -0.3 then .frostPeaks
  else if temperature > 0.5 ∧ moisture < 0.0 then .moltenBadlands
  else if moisture < -0.2 ∧ temperature > -0.1 then .azureCoast
  else if moisture > 0.4 ∧ temperature > 0.2 then .mushroomGlades
  else if moisture > 0.1 ∧ temperature < 0.2 then .crystalForest
  else .verdantPlains

/-- C6. For every pair of climate scalars, `selectBiome` follows the fixed
ordered decision table first-match-wins: each row fires exactly when its
guard holds and no earlier guard does, and when no row matches the result
is the fallback biome Verdant Plains. In particular the function is total
(it always returns one of the six biomes). -/
theorem selectBiome_decision_table (t m : ℚ) :
    (t < -0.3 → selectBiome t m = .frostPeaks) ∧
    (¬ t < -0.3 → t > 0.5 ∧ m < 0.0 → selectBiome t m = .moltenBadlands) ∧
    (¬ t < -0.3 → ¬ (t > 0.5 ∧ m < 0.0) → m < -0.2 ∧ t > -0.1 →
      selectBiome t m = .azureCoast) ∧
    (¬ t < -0.3 → ¬ (t > 0.5 ∧ m < 0.0) → ¬ (m < -0.2 ∧ t > -0.1) →
      m > 0.4 ∧ t > 0.2 → selectBiome t m = .mushroomGlades) ∧
    (¬ t < -0.3 → ¬ (t > 0.5 ∧ m < 0.0) → ¬ (m < -0.2 ∧ t > -0.1) →
      ¬ (m > 0.4 ∧ t > 0.2) → m > 0.1 ∧ t < 0.2 →
      selectBiome t m = .crystalForest) ∧
    (¬ t < -0.3 → ¬ (t > 0.5 ∧ m < 0.0) → ¬ (m < -0.2 ∧ t > -0.1) →
      ¬ (m > 0.4 ∧ t > 0.2) → ¬ (m > 0.1 ∧ t < 0.2) →
      selectBiome t m = .verdantPlains) := by
  unfold selectBiome
  refine ⟨fun h1 => ?_, fun h1 h2 => ?_, fun h1 h2 h3 => ?_,
    fun h1 h2 h3 h4 => ?_, fun h1 h2 h3 h4 h5 => ?_, fun h1 h2 h3 h4 h5 => ?_⟩ <;>
    simp only [if_pos, if_neg, *] <;> rfl

/-- Witness for C6 at a concrete frost-peaks climate sample. -/
theorem selectBiome_decision_table_witness :
    selectBiome (-0.5) 0 = Biome.frostPeaks :=
  (selectBiome_decision_table (-0.5) 0).1 (by norm_num)

/-! ## Seeded Perlin noise (shared/noise.js) -/

/-- One step `s = (s * 1664525 + 1013904223) >>> 0` of the seeding LCG. -/
def lcgNext (s : ℕ) : ℕ := (s * 1664525 + 1013904223) % 4294967296

/-- One Fisher-Yates iteration of the `PerlinNoise` constructor: advance the
LCG, draw `j = s % (i + 1)` and swap `p[i]` with `p[j]`. -/
def shuffleStep (ps : List ℕ × ℕ) (i : ℕ) : List ℕ × ℕ :=
  let p := ps.1
  let s2 := lcgNext ps.2
  let j := s2 % (i + 1)
  let pi := p.getD i 0
  let pj := p.getD j 0
  ((p.set i pj).set j pi, s2)

/-- The shuffled permutation table built by `new PerlinNoise(seed)`:
`p = [0..255]` shuffled by the seeded LCG with `i` running from 255 down
to 1, starting from `seed >>> 0`. -/
def permTable (seed : ℕ) : List ℕ :=
  ((List.range' 1 255).reverse.foldl shuffleStep (List.range 256, seed % 4294967296)).1

/-- Lookup in the doubled table, `this.perm[i] = p[i & 255]` (all reads use
indices below 512, so the doubling is exactly an index reduction mod 256). -/
def permAt (p : List ℕ) (i : ℕ) : ℕ := p.getD (i % 256) 0

/-- The classic 2D gradient vectors `GRAD2`. -/
def GRAD2 : List (ℚ × ℚ) :=
  [(1, 1), (-1, 1), (1, -1), (-1, -1), (1, 0), (-1, 0), (0, 1), (0, -1)]

/-- Gradient dot product `_grad(hash, x, y)` (with `hash & 7 = hash % 8`). -/
def grad (hash : ℕ) (x y : ℚ) : ℚ :=
  let g := GRAD2.getD (hash % 8) (0, 0)
  g.1 * x + g.2 * y

/-- Quintic fade curve `_fade`. -/
def fade (t : ℚ) : ℚ := t * t * t * (t * (t * 6 - 15) + 10)

/-- Linear interpolation `_lerp`. -/
def lerp (a b t : ℚ) : ℚ := a + t * (b - a)

/-- Single-octave 2D Perlin noise `noise2D(x, y)` over the permutation table
`p`. `Math.floor(x) & 255` is the nonnegative residue mod 256 of the floor
(JS bitwise-and first wraps into 32 bits, and 256 divides 2^32). -/
def noise2D (p : List ℕ) (x y : ℚ) : ℚ :=
  let xi := (Int.emod ⌊x⌋ 256).toNat
  let yi := (Int.emod ⌊y⌋ 256).toNat
  let xf := x - (⌊x⌋ : ℚ)
  let yf := y - (⌊y⌋ : ℚ)
  let u := fade xf
  let v := fade yf
  let aa := permAt p (permAt p xi + yi)
  let ab := permAt p (permAt p xi + yi + 1)
  let ba := permAt p (permAt p (xi + 1) + yi)
  let bb := permAt p (permAt p (xi + 1) + yi + 1)
  lerp (lerp (grad aa xf yf) (grad ba (xf - 1) yf) u)
       (lerp (grad ab xf (yf - 1)) (grad bb (xf - 1) (yf - 1)) u) v

/-- The state of the `fbm` loop after `octaves` iterations:
(value, amplitude, frequency, max). -/
def fbmGo (p : List ℕ) (x y lac pers : ℚ) : ℕ → ℚ × ℚ × ℚ × ℚ
  | 0 => (0, 1, 1, 0)
  | n + 1 =>
    let st := fbmGo p x y lac pers n
    (st.1 + noise2D p (x * st.2.2.1) (y * st.2.2.1) * st.2.1,
     st.2.1 * pers, st.2.2.1 * lac, st.2.2.2 + st.2.1)

/-- Multi-octave fractal noise `fbm(x, y, octaves, lacunarity, persistence)`:
the accumulated value divided by the accumulated amplitude total. -/
def fbm (p : List ℕ) (x y : ℚ) (octaves : ℕ) (lac pers : ℚ) : ℚ :=
  let st := fbmGo p x y lac pers octaves
  st.1 / st.2.2.2

/-! ## World constants (shared/protocol.js) -/

def CHUNK_SIZE : ℕ := 16
def CHUNK_HEIGHT : ℕ := 64
def SEA_LEVEL : ℕ := 18
def WORLD_SEED : ℕ := 42
def TICK_RATE : ℕ := 20
def RENDER_DISTANCE : ℤ := 6

/-! ## World generator (server/src/world-gen.js) -/

/-- The `WorldGen` instance: seven independently seeded noise fields derived
from the world seed exactly as in the constructor. -/
structure WorldGen where
  seed : ℕ
  terrain : List ℕ
  biomeT : List ℕ
  biomeM : List ℕ
  cave : List ℕ
  ore : List ℕ
  tree : List ℕ
  detail : List ℕ
deriving Repr, DecidableEq

/-- Constructor `new WorldGen(seed)`. -/
def WorldGen.init (seed : ℕ) : WorldGen :=
  ⟨seed, permTable seed, permTable (seed + 1000), permTable (seed + 2000),
   permTable (seed + 3000), permTable (seed + 4000), permTable (seed + 5000),
   permTable (seed + 6000)⟩

/-- JS remainder `a % m` for the nonnegative `a` and positive integer `m`
used by the tree-height computation. -/
def jsMod (a m : ℚ) : ℚ := a - m * (⌊a / m⌋ : ℚ)

/-- Pass 1 of `generateChunk`, for one column `(lx, lz)`: the clamped
height-map entry and the biome record. -/
def columnInfo (w : WorldGen) (cx cz : ℤ) (lx lz : ℕ) : ℤ × BiomeDef :=
  let wx : ℚ := ((cx * 16 + (lx : ℤ) : ℤ) : ℚ)
  let wz : ℚ := ((cz * 16 + (lz : ℤ) : ℤ) : ℚ)
  let temp := fbm w.biomeT (wx / 256) (wz / 256) 3 2 0.5
  let moist := fbm w.biomeM (wx / 256) (wz / 256) 3 2 0.5
  let biome := BIOME_DATA (selectBiome temp moist)
  let base := fbm w.terrain (wx / 80) (wz / 80) 5 2 0.45
  let det := fbm w.detail (wx / 20) (wz / 20) 2 2 0.5 * 0.15
  let height : ℤ := ⌊biome.heightBase + (base + det) * biome.heightAmp⌋
  (max 1 (min ((CHUNK_HEIGHT : ℤ) - 2) height), biome)

/-- Depth-banded ore selector `_stoneOrOre(x, y, z)`; the cascaded early
returns of the source become one if-chain in the same order. -/
def stoneOrOre (w : WorldGen) (x : ℚ) (y : ℕ) (z : ℚ) : ℕ :=
  let oreVal := noise2D w.ore (x / 8 + (y : ℚ) * 0.1) (z / 8 + (y : ℚ) * 0.1)
  if y < 8 ∧ oreVal > 0.7 then DIAMOND_ORE
  else if y < 8 ∧ oreVal > 0.6 then MOLTIUM_ORE
  else if y < 8 ∧ oreVal < -0.6 then VOID_STONE
  else if y < 20 ∧ oreVal > 0.65 then GOLD_ORE
  else if y < 20 ∧ oreVal < -0.65 then GRAVEL
  else if y < 40 ∧ oreVal > 0.6 then IRON_ORE
  else if oreVal > 0.55 then COAL_ORE
  else STONE

/-- Pass 2 of `generateChunk`, the block written at `(lx, y, lz)` given the
column height and biome: bedrock floor, biome surface/subsoil, ore band,
cave carving, and sea-level water fill. -/
def baseBlock (w : WorldGen) (cx cz : ℤ) (lx lz y : ℕ) (height : ℤ)
    (biome : BiomeDef) : ℕ :=
  let wx : ℚ := ((cx * 16 + (lx : ℤ) : ℤ) : ℚ)
  let wz : ℚ := ((cz * 16 + (lz : ℤ) : ℤ) : ℚ)
  if y = 0 then BEDROCK
  else if (y : ℤ) ≤ height then
    let b :=
      if (y : ℤ) = height then
        (if height < (SEA_LEVEL : ℤ) then biome.subsoil else biome.surface)
      else if (y : ℤ) > height - 4 then biome.subsoil
      else stoneOrOre w wx y wz
    if 1 < y ∧ (y : ℤ) < height - 5 ∧
        fbm w.cave (wx / 30) ((y : ℚ) / 20 + wz / 30) 3 2 0.5 > 0.55 then AIR
    else b
  else if y ≤ SEA_LEVEL then WATER
  else AIR

/-- Passes 1-2 of `generateChunk`: the dense 16x64x16 array before trees.
The source writes index `(y * 16 + lz) * 16 + lx` once per loop iteration;
here the array is produced index-by-index with the inverse index map. -/
def pass2 (w : WorldGen) (cx cz : ℤ) (info : ℕ → ℤ × BiomeDef) : List ℕ :=
  (List.range (CHUNK_SIZE * CHUNK_HEIGHT * CHUNK_SIZE)).map fun idx =>
    let lx := idx % 16
    let lz := (idx / 16) % 16
    let y := idx / 256
    let hb := info (lx * 16 + lz)
    baseBlock w cx cz lx lz y hb.1 hb.2

/-- The integers from `lo` to `hi` inclusive (empty when `hi < lo`). -/
def rangeZ (lo hi : ℤ) : List ℤ :=
  (List.range (hi + 1 - lo).toNat).map (fun k : ℕ => lo + (k : ℤ))

/-- The guarded block write `set(x, y, z, id)` inside `_placeTree`: ignore
out-of-chunk coordinates and never overwrite a non-air block. -/
def treeSet (blocks : List ℕ) (x y z : ℤ) (id : ℕ) : List ℕ :=
  if x < 0 ∨ 16 ≤ x ∨ z < 0 ∨ 16 ≤ z ∨ y < 0 ∨ 64 ≤ y then blocks
  else if blocks.getD ((y * 16 + z) * 16 + x).toNat 0 = AIR then
    blocks.set ((y * 16 + z) * 16 + x).toNat id
  else blocks

/-- Tree writer `_placeTree(blocks, lx, baseY, lz, height, logId, leafId)`:
trunk column and sphere-ish canopy. -/
def placeTree (blocks : List ℕ) (lx : ℕ) (baseY : ℤ) (lz height logId leafId : ℕ) :
    List ℕ :=
  if (CHUNK_HEIGHT : ℤ) ≤ baseY + height then blocks
  else
    let withTrunk := (List.range height).foldl
      (fun b dy => treeSet b lx (baseY + dy) lz logId) blocks
    let canopyStart := height / 2
    let canopyRadius : ℤ := max 1 ((height : ℤ) / 3)
    (List.range' canopyStart (height + 2 - canopyStart)).foldl (fun b dy =>
      let r : ℤ := if dy ≤ height then canopyRadius else max 0 (canopyRadius - 1)
      (rangeZ (-r) r).foldl (fun b2 dx =>
        (rangeZ (-r) r).foldl (fun b3 dz =>
          if dx = 0 ∧ dz = 0 ∧ dy < height then b3
          else if dx * dx + dz * dz ≤ r * r + 1 then
            treeSet b3 ((lx : ℤ) + dx) (baseY + dy) ((lz : ℤ) + dz) leafId
          else b3) b2) b) withTrunk

/-- Pass 3 of `generateChunk`: probabilistic tree rooting over the interior
columns `2 ≤ lx, lz ≤ 13`. -/
def pass3 (w : WorldGen) (cx cz : ℤ) (info : ℕ → ℤ × BiomeDef)
    (blocks : List ℕ) : List ℕ :=
  (List.range' 2 12).foldl (fun b lx =>
    (List.range' 2 12).foldl (fun b2 lz =>
      let hb := info (lx * 16 + lz)
      let height := hb.1
      let biome := hb.2
      if height ≤ (SEA_LEVEL : ℤ) ∨ biome.treeLog = none ∨ biome.treeDensity = 0 then b2
      else
        let wx : ℚ := ((cx * 16 + (lx : ℤ) : ℤ) : ℚ)
        let wz : ℚ := ((cz * 16 + (lz : ℤ) : ℤ) : ℚ)
        let treeNoise := |noise2D w.tree (wx * 0.8) (wz * 0.8)|
        if treeNoise < biome.treeDensity * 50 then
          let span : ℕ := biome.treeMaxH - biome.treeMinH + 1
          let treeH := biome.treeMinH + (⌊jsMod (treeNoise * 100) (span : ℚ)⌋).toNat
          placeTree b2 lx (height + 1) lz treeH (biome.treeLog.getD 0)
            (biome.treeLeaf.getD 0)
        else b2) b) blocks

/-- Deterministic chunk generator `WorldGen.generateChunk(cx, cz)`: the three
passes composed. -/
def WorldGen.generateChunk (w : WorldGen) (cx cz : ℤ) : List ℕ :=
  let info := fun mi => columnInfo w cx cz (mi / 16) (mi % 16)
  pass3 w cx cz info (pass2 w cx cz info)

/-- C1. `generateChunk` is a pure function of the seed and the chunk
coordinates: two `WorldGen` instances constructed from equal seeds return
identical block arrays for the same `(cx, cz)`. In this embedding the
generator is a closed function of `(seed, cx, cz)` with no other state, so
independence from call order and from previously generated chunks is
structural: no argument carries the chunk cache or any mutable server
state. -/
theorem generateChunk_deterministic (s1 s2 : ℕ) (cx cz : ℤ) (h : s1 = s2) :
    (WorldGen.init s1).generateChunk cx cz = (WorldGen.init s2).generateChunk cx cz := by
  rw [h]

/-- Witness for C1 at the default world seed and the spawn chunk. -/
theorem generateChunk_deterministic_witness :
    (WorldGen.init WORLD_SEED).generateChunk 0 0
      = (WorldGen.init WORLD_SEED).generateChunk 0 0 :=
  generateChunk_deterministic WORLD_SEED WORLD_SEED 0 0 rfl

/-! ## Chunk keys and association-list maps (game-server.js) -/

/-- Chunk key helper: the template literal `chunkKey(cx, cz)` renders both
integers in decimal and joins them with a comma. -/
def chunkKey (cx cz : ℤ) : String := cx.repr ++ "," ++ cz.repr

/-- Lookup `Map.get` on a JS `Map` modeled as an insertion-ordered
association list (keys are unique in every state the server builds). -/
def mapGet {α : Type} : List (String × α) → String → Option α
  | [], _ => none
  | e :: t, k => if e.1 = k then some e.2 else mapGet t k

/-- Update `Map.set`: replace in place when the key exists, else append,
preserving the JS `Map` insertion-iteration order. -/
def mapSet {α : Type} : List (String × α) → String → α → List (String × α)
  | [], k, v => [(k, v)]
  | e :: t, k, v => if e.1 = k then (k, v) :: t else e :: mapSet t k v

/-- Insertion `Set.add` on a JS `Set` modeled as a duplicate-free list. -/
def setAdd (s : List String) (k : String) : List String :=
  if k ∈ s then s else s ++ [k]

/-! ## Chunk store and block addressing (game-server.js, second revision) -/

/-- World-to-chunk coordinate, `Math.floor(x / CHUNK_SIZE)`. -/
def worldToChunk (x : ℤ) : ℤ := Int.fdiv x 16

/-- World-to-local offset, `((x % CHUNK_SIZE) + CHUNK_SIZE) % CHUNK_SIZE`
with the JS truncated remainder. -/
def worldToLocal (x : ℤ) : ℤ := ((x.tmod 16) + 16).tmod 16

/-- Per-connection session state; only the fields the verified handlers
touch are carried (`profile.stats` is flattened into the two counters). -/
structure Session where
  accountId : ℕ
  pos : ℚ × ℚ × ℚ
  blocksMined : ℕ
  blocksPlaced : ℕ
  sentChunks : List String
  lastCX : Option ℤ
  lastCZ : Option ℤ
deriving Repr, DecidableEq

/-- Server-side world state: the generator, the chunk cache, the
persistence dirty set and the session registry. -/
structure GameState where
  worldGen : WorldGen
  chunks : List (String × List ℕ)
  dirty : List String
  sessions : List Session
deriving Repr, DecidableEq

/-- Lazy chunk materialization `_ensureChunk(cx, cz)`: return the cached
array or generate-then-cache. -/
def ensureChunk (st : GameState) (cx cz : ℤ) : List ℕ × GameState :=
  match mapGet st.chunks (chunkKey cx cz) with
  | some data => (data, st)
  | none =>
    (st.worldGen.generateChunk cx cz,
     { st with chunks := mapSet st.chunks (chunkKey cx cz) (st.worldGen.generateChunk cx cz) })

/-- Block read `_getBlock(x, y, z)`: out-of-range vertical coordinates are
air; otherwise read the flat index of the (possibly just generated) chunk. -/
def getBlock (st : GameState) (x y z : ℤ) : ℕ × GameState :=
  if y < 0 ∨ (CHUNK_HEIGHT : ℤ) ≤ y then (AIR, st)
  else
    ((ensureChunk st (worldToChunk x) (worldToChunk z)).1.getD
       ((y * 16 + worldToLocal z) * 16 + worldToLocal x).toNat 0,
     (ensureChunk st (worldToChunk x) (worldToChunk z)).2)

/-- Block write `_setBlock(x, y, z, blockId)`: no-op outside the vertical
range; otherwise write the flat index (mod 256, the `Uint8Array`
truncation) and mark the chunk dirty for persistence. -/
def setBlock (st : GameState) (x y z : ℤ) (blockId : ℕ) : GameState :=
  if y < 0 ∨ (CHUNK_HEIGHT : ℤ) ≤ y then st
  else
    { (ensureChunk st (worldToChunk x) (worldToChunk z)).2 with
      chunks := mapSet (ensureChunk st (worldToChunk x) (worldToChunk z)).2.chunks (chunkKey (worldToChunk x) (worldToChunk z)) ((ensureChunk st (worldToChunk x) (worldToChunk z)).1.set ((y * 16 + worldToLocal z) * 16 + worldToLocal x).toNat (blockId % 256)),
      dirty := setAdd (ensureChunk st (worldToChunk x) (worldToChunk z)).2.dirty (chunkKey (worldToChunk x) (worldToChunk z)) }

/-- Negating the dividend negates the truncated remainder. -/
theorem neg_tmod_lemma (a b : ℤ) : (-a).tmod b = -(a.tmod b) := by
  simp only [Int.tmod_def, Int.neg_tdiv]
  ring

/-- The non-negative-mod normalization used by the block addressing agrees
with the Euclidean remainder. -/
theorem worldToLocal_eq_emod (x : ℤ) : worldToLocal x = x % 16 := by
  have hub := Int.tmod_lt_of_pos x (show (0 : ℤ) < 16 by norm_num)
  have hlb : -16 < x.tmod 16 := by
    rcases Int.le_total 0 x with h | h
    · have h2 := Int.tmod_nonneg 16 h
      omega
    · have h2 := Int.tmod_nonneg 16 (show (0 : ℤ) ≤ -x by omega)
      have h4 := Int.tmod_lt_of_pos (-x) (show (0 : ℤ) < 16 by norm_num)
      have h3 : x.tmod 16 = -((-x).tmod 16) := by
        have h5 := neg_tmod_lemma (-x) 16
        simpa using h5
      omega
  have hdef := Int.tmod_def x 16
  unfold worldToLocal
  rw [Int.tmod_eq_emod (by omega) (by norm_num)]
  omega

/-- C2. The world-to-chunk/local decomposition used by `_getBlock` and
`_setBlock` round-trips: `worldToChunk x * 16 + worldToLocal x = x` with the
local offset in `[0, 16)`, so each world coordinate corresponds to exactly
one (chunk, local) pair — any pair `(c, l)` with `l ∈ [0, 16)` and
`c * 16 + l = x` is that one; and a block read at a vertical coordinate
outside `[0, 64)` returns air. -/
theorem coord_roundtrip_and_vertical_air (st : GameState) (x y z : ℤ)
    (hy : y < 0 ∨ (64 : ℤ) ≤ y) :
    (worldToChunk x * 16 + worldToLocal x = x ∧
     0 ≤ worldToLocal x ∧ worldToLocal x < 16 ∧
     worldToChunk z * 16 + worldToLocal z = z ∧
     0 ≤ worldToLocal z ∧ worldToLocal z < 16 ∧
     (∀ c l : ℤ, 0 ≤ l → l < 16 → c * 16 + l = x →
       c = worldToChunk x ∧ l = worldToLocal x)) ∧
    (getBlock st x y z).1 = AIR := by
  have hx := worldToLocal_eq_emod x
  have hz := worldToLocal_eq_emod z
  have hcx : worldToChunk x = x / 16 := Int.fdiv_eq_ediv x (by norm_num)
  have hcz : worldToChunk z = z / 16 := Int.fdiv_eq_ediv z (by norm_num)
  constructor
  · refine ⟨by omega, by omega, by omega, by omega, by omega, by omega, ?_⟩
    intro c l h0 h1 h2
    omega
  · unfold getBlock
    rw [if_pos (by exact_mod_cast hy)]

/-- Witness for C2 at `x = 5`, `z = -7`, `y = 64` on an empty server state. -/
theorem coord_roundtrip_and_vertical_air_witness :
    (worldToChunk 5 * 16 + worldToLocal 5 = 5 ∧
     0 ≤ worldToLocal 5 ∧ worldToLocal 5 < 16 ∧
     worldToChunk (-7) * 16 + worldToLocal (-7) = -7 ∧
     0 ≤ worldToLocal (-7) ∧ worldToLocal (-7) < 16 ∧
     (∀ c l : ℤ, 0 ≤ l → l < 16 → c * 16 + l = 5 →
       c = worldToChunk 5 ∧ l = worldToLocal 5)) ∧
    (getBlock ⟨WorldGen.init 42, [], [], []⟩ 5 64 (-7)).1 = AIR :=
  coord_roundtrip_and_vertical_air ⟨WorldGen.init 42, [], [], []⟩ 5 64 (-7)
    (Or.inr (by norm_num))

/-! ## Decimal rendering facts

The JS template literal `${cx},${cz}` renders integers in decimal, which is
`Int.repr`. The lemmas below characterize the rendered character lists and
give injectivity of `chunkKey`. -/

/-- Numeric value of a decimal digit character. -/
def charVal (c : Char) : ℕ := c.toNat - 48

/-- Value of a most-significant-first decimal digit list. -/
def listVal (l : List Char) : ℕ := l.foldl (fun a c => a * 10 + charVal c) 0

/-- Reference decimal rendering of a natural number, most significant digit
first (used only in proofs about `Nat.repr`). -/
def natDigits (n : ℕ) : List Char :=
  if n < 10 then [Nat.digitChar n]
  else natDigits (n / 10) ++ [Nat.digitChar (n % 10)]
decreasing_by exact Nat.div_lt_self (by omega) (by norm_num)

theorem digitChar_isDigit (k : ℕ) (h : k < 10) : (Nat.digitChar k).isDigit = true := by
  interval_cases k <;> decide

theorem charVal_digitChar (k : ℕ) (h : k < 10) : charVal (Nat.digitChar k) = k := by
  interval_cases k <;> decide

theorem natDigits_digits (n : ℕ) : ∀ c ∈ natDigits n, c.isDigit = true := by
  induction n using Nat.strong_induction_on with
  | _ n ih =>
    rw [natDigits]
    split
    · intro c hc
      rw [List.mem_singleton] at hc
      subst hc
      exact digitChar_isDigit n (by omega)
    · intro c hc
      rcases List.mem_append.mp hc with h | h
      · exact ih (n / 10) (Nat.div_lt_self (by omega) (by norm_num)) c h
      · rw [List.mem_singleton] at h
        subst h
        exact digitChar_isDigit (n % 10) (Nat.mod_lt n (by norm_num))

theorem natDigits_ne_nil (n : ℕ) : natDigits n ≠ [] := by
  rw [natDigits]
  split <;> simp

theorem listVal_append_singleton (l : List Char) (c : Char) :
    listVal (l ++ [c]) = listVal l * 10 + charVal c := by
  unfold listVal
  rw [List.foldl_append]
  rfl

theorem listVal_natDigits (n : ℕ) : listVal (natDigits n) = n := by
  induction n using Nat.strong_induction_on with
  | _ n ih =>
    rw [natDigits]
    split
    · simp only [listVal, List.foldl]
      rw [charVal_digitChar n (by omega)]
      omega
    · rw [listVal_append_singleton,
        ih (n / 10) (Nat.div_lt_self (by omega) (by norm_num)),
        charVal_digitChar (n % 10) (Nat.mod_lt n (by norm_num))]
      omega

theorem natDigits_inj {a b : ℕ} (h : natDigits a = natDigits b) : a = b := by
  have := listVal_natDigits a
  rw [h, listVal_natDigits] at this
  omega

theorem toDigitsCore_spec (n : ℕ) : ∀ (fuel : ℕ) (ds : List Char), n < fuel →
    Nat.toDigitsCore 10 fuel n ds = natDigits n ++ ds := by
  induction n using Nat.strong_induction_on with
  | _ n ih =>
    intro fuel ds hf
    rcases fuel with _ | f
    · omega
    · simp only [Nat.toDigitsCore]
      by_cases h10 : n / 10 = 0
      · rw [if_pos h10]
        conv_rhs => rw [natDigits]
        rw [if_pos (by omega), Nat.mod_eq_of_lt (by omega)]
        rfl
      · rw [if_neg h10,
          ih (n / 10) (Nat.div_lt_self (by omega) (by norm_num)) f (Nat.digitChar (n % 10) :: ds)
            (by omega)]
        conv_rhs => rw [natDigits]
        rw [if_neg (by omega)]
        simp

theorem natRepr_data (n : ℕ) : (Nat.repr n).data = natDigits n := by
  show (Nat.toDigits 10 n).asString.data = natDigits n
  unfold Nat.toDigits
  rw [toDigitsCore_spec n (n + 1) [] (by omega)]
  simp [List.asString]

/-- Character list of the decimal rendering of an integer. -/
theorem intRepr_data (i : ℤ) :
    (Int.repr i).data =
      if i < 0 then '-' :: natDigits (-i).toNat else natDigits i.toNat := by
  match i with
  | Int.ofNat m =>
    rw [if_neg (show ¬ Int.ofNat m < 0 from Int.not_lt.mpr (Int.ofNat_nonneg m))]
    show (Nat.repr m).data = _
    rw [natRepr_data]
    norm_num
  | Int.negSucc m =>
    rw [if_pos (by exact Int.negSucc_lt_zero m)]
    show (("-" : String) ++ Nat.repr (m + 1)).data = _
    rw [String.data_append, natRepr_data]
    norm_num
    rfl

theorem natDigits_head (n : ℕ) : ∃ c t, natDigits n = c :: t ∧ c.isDigit = true := by
  rcases h : natDigits n with _ | ⟨c, t⟩
  · exact absurd h (natDigits_ne_nil n)
  · exact ⟨c, t, rfl, natDigits_digits n c (h ▸ List.mem_cons_self c t)⟩

theorem intRepr_chars (i : ℤ) :
    ∀ c ∈ (Int.repr i).data, c = '-' ∨ c.isDigit = true := by
  intro c hc
  rw [intRepr_data] at hc
  split at hc
  · rcases List.mem_cons.mp hc with h | h
    · exact Or.inl h
    · exact Or.inr (natDigits_digits _ c h)
  · exact Or.inr (natDigits_digits _ c hc)

theorem intRepr_inj {i j : ℤ} (h : Int.repr i = Int.repr j) : i = j := by
  have hd : (Int.repr i).data = (Int.repr j).data := by rw [h]
  rw [intRepr_data, intRepr_data] at hd
  by_cases hi : i < 0 <;> by_cases hj : j < 0
  · rw [if_pos hi, if_pos hj] at hd
    injection hd with h1 h2
    have := natDigits_inj h2
    omega
  · rw [if_pos hi, if_neg hj] at hd
    obtain ⟨cj, tj, hjEq, hdj⟩ := natDigits_head j.toNat
    rw [hjEq] at hd
    injection hd with h1 h2
    rw [← h1] at hdj
    exact absurd hdj (by decide)
  · rw [if_neg hi, if_pos hj] at hd
    obtain ⟨ci, ti, hiEq, hdi⟩ := natDigits_head i.toNat
    rw [hiEq] at hd
    injection hd with h1 h2
    rw [h1] at hdi
    exact absurd hdi (by decide)
  · rw [if_neg hi, if_neg hj] at hd
    have := natDigits_inj hd
    omega

theorem comma_not_mem_intRepr (i : ℤ) : ',' ∉ (Int.repr i).data := by
  intro hc
  rcases intRepr_chars i ',' hc with h | h
  · exact absurd h (by decide)
  · exact absurd h (by decide)

theorem comma_split (a : List Char) : ∀ (c b d : List Char), ',' ∉ a → ',' ∉ c →
    a ++ ',' :: b = c ++ ',' :: d → a = c ∧ b = d := by
  induction a with
  | nil =>
    intro c b d _ hc h
    cases c with
    | nil => simpa using h
    | cons x xs =>
      simp only [List.nil_append, List.cons_append, List.cons.injEq] at h
      exact absurd (h.1 ▸ List.mem_cons_self x xs) hc
  | cons x xs ih =>
    intro c b d ha hc h
    cases c with
    | nil =>
      simp only [List.nil_append, List.cons_append, List.cons.injEq] at h
      exact absurd (h.1 ▸ List.mem_cons_self x xs) (h.1 ▸ ha)
    | cons y ys =>
      simp only [List.cons_append, List.cons.injEq] at h
      obtain ⟨hxy, hrest⟩ := h
      have hxs : ',' ∉ xs := fun hm => ha (List.mem_cons_of_mem x hm)
      have hys : ',' ∉ ys := fun hm => hc (List.mem_cons_of_mem y hm)
      obtain ⟨h1, h2⟩ := ih ys b d hxs hys hrest
      exact ⟨by rw [hxy, h1], h2⟩

/-- Two chunk keys agree exactly when their chunk coordinates agree. -/
theorem chunkKey_inj {a b c d : ℤ} (h : chunkKey a b = chunkKey c d) :
    a = c ∧ b = d := by
  have hd : (chunkKey a b).data = (chunkKey c d).data := by rw [h]
  unfold chunkKey at hd
  simp only [String.data_append] at hd
  rw [List.append_assoc, List.append_assoc] at hd
  simp only [List.singleton_append] at hd
  obtain ⟨h1, h2⟩ := comma_split (Int.repr a).data (Int.repr c).data
    (Int.repr b).data (Int.repr d).data (comma_not_mem_intRepr a)
    (comma_not_mem_intRepr c) hd
  exact ⟨intRepr_inj (String.ext h1), intRepr_inj (String.ext h2)⟩

/-! ## Association-list map lemmas -/

theorem mapGet_set_self {α : Type} (m : List (String × α)) (k : String) (v : α) :
    mapGet (mapSet m k v) k = some v := by
  induction m with
  | nil => simp [mapGet, mapSet]
  | cons e t ih =>
    by_cases he : e.1 = k
    · simp [mapGet, mapSet, he]
    · simp [mapGet, mapSet, he, ih]

theorem mapGet_set_ne {α : Type} (m : List (String × α)) (k kq : String) (v : α)
    (h : kq ≠ k) : mapGet (mapSet m k v) kq = mapGet m kq := by
  have hk : ¬ k = kq := fun hh => h hh.symm
  induction m with
  | nil => simp [mapGet, mapSet, hk]
  | cons e t ih =>
    by_cases he : e.1 = k
    · have heq : ¬ e.1 = kq := by rw [he]; exact hk
      simp [mapGet, mapSet, he, heq, hk]
    · by_cases heq : e.1 = kq
      · simp [mapGet, mapSet, he, heq, h]
      · simp [mapGet, mapSet, he, heq, ih]

/-! ## Protocol result and message types (shared/protocol.js, game-server.js) -/

/-- Creature type keys of the `MOB_TYPES` table. -/
inductive MobType where
  | woolly
  | glowbug
  | frostling
  | shroomy
  | lavaSlime
  | shadowCreep
deriving Repr, DecidableEq

/-- Day phases returned by `_getDayPhase()`. -/
inductive DayPhase where
  | dawn
  | day
  | dusk
  | night
deriving Repr, DecidableEq

/-- Protocol error codes. -/
inductive ErrCode where
  | UNAUTHENTICATED
  | UNAUTHORIZED
  | NOT_FOUND
  | INVALID_ARGUMENT
  | RATE_LIMITED
  | CONFLICT
  | INTERNAL
deriving Repr, DecidableEq

/-- Action result sent back to the initiating session; `effects` carries the
`{mined, drop}` pair of a successful Mine. -/
structure ActionResult where
  ok : Bool
  error : Option ErrCode
  effects : Option (ℕ × ℕ)
deriving Repr, DecidableEq

/-- Broadcast messages the verified handlers emit. -/
inductive Msg where
  | blockUpdate (x y z : ℤ) (block : ℕ)
  | worldChunk (cx cz : ℤ) (data : List ℕ)
  | playerMove (accountId : ℕ) (pos : ℚ × ℚ × ℚ)
  | mobSpawn (id : String) (type : MobType) (pos : ℚ × ℚ × ℚ) (hp maxHp : ℚ)
  | mobMove (id : String) (pos : ℚ × ℚ × ℚ)
  | mobHurt (id : String) (hp maxHp : ℚ)
  | mobDespawn (id : String)
deriving Repr, DecidableEq

/-- Drop id of a mined block, `BLOCKS.get(block)?.drop ?? block`. -/
def dropOf (id : ℕ) : ℕ :=
  match blocksGet id with
  | some b => b.drop
  | none => id

/-- In-place mutation of the acting session (JS mutates the session object
held in the map; here the registry entry is rewritten). -/
def updateSession (l : List Session) (sid : ℕ) (f : Session → Session) :
    List Session :=
  l.map (fun s => if s.accountId = sid then f s else s)

/-- Mine handler `_actionMine`: reject air or non-mineable targets with
INVALID_ARGUMENT, else write air, count the mined block, answer with the
drop id and broadcast the diff to all sessions. -/
def actionMine (st : GameState) (sid : ℕ) (x y z : ℤ) :
    GameState × ActionResult × List Msg :=
  if (getBlock st x y z).1 = AIR ∨ isMineable (getBlock st x y z).1 = false then
    ((getBlock st x y z).2, ⟨false, some ErrCode.INVALID_ARGUMENT, none⟩, [])
  else
    ({ setBlock (getBlock st x y z).2 x y z AIR with
       sessions := updateSession (setBlock (getBlock st x y z).2 x y z AIR).sessions sid (fun s => { s with blocksMined := s.blocksMined + 1 }) },
     ⟨true, none, some ((getBlock st x y z).1, dropOf (getBlock st x y z).1)⟩,
     [Msg.blockUpdate x y z AIR])

/-- Place handler `_actionPlace`: reject non-placeable ids with
INVALID_ARGUMENT, reject solid targets with CONFLICT, else write the id,
count it and broadcast the diff to all sessions. -/
def actionPlace (st : GameState) (sid : ℕ) (x y z : ℤ) (blockId : ℕ) :
    GameState × ActionResult × List Msg :=
  if isPlaceable blockId = false then
    (st, ⟨false, some ErrCode.INVALID_ARGUMENT, none⟩, [])
  else if isSolid (getBlock st x y z).1 = true then
    ((getBlock st x y z).2, ⟨false, some ErrCode.CONFLICT, none⟩, [])
  else
    ({ setBlock (getBlock st x y z).2 x y z blockId with
       sessions := updateSession (setBlock (getBlock st x y z).2 x y z blockId).sessions sid (fun s => { s with blocksPlaced := s.blocksPlaced + 1 }) },
     ⟨true, none, none⟩,
     [Msg.blockUpdate x y z blockId])

/-! ## Chunk-store lemmas -/

/-- Every cached chunk holds a full 16x64x16 byte array. -/
def ChunksWF (st : GameState) : Prop :=
  ∀ k c, mapGet st.chunks k = some c → c.length = 16384

theorem foldl_preserves_length {β : Type} (f : List ℕ → β → List ℕ)
    (h : ∀ b x, (f b x).length = b.length) (l : List β) (b : List ℕ) :
    (l.foldl f b).length = b.length := by
  induction l generalizing b with
  | nil => rfl
  | cons e t ih => rw [List.foldl_cons, ih, h]

theorem treeSet_length (b : List ℕ) (x y z : ℤ) (id : ℕ) :
    (treeSet b x y z id).length = b.length := by
  unfold treeSet
  split
  · rfl
  · split
    · exact List.length_set b _ _
    · rfl

theorem length_ite_treeSet (b : List ℕ) (c : Prop) [Decidable c] (x y z : ℤ) (id : ℕ) :
    (if c then treeSet b x y z id else b).length = b.length := by
  split
  · exact treeSet_length b x y z id
  · rfl

theorem placeTree_length (b : List ℕ) (lx : ℕ) (baseY : ℤ)
    (lz height logId leafId : ℕ) :
    (placeTree b lx baseY lz height logId leafId).length = b.length := by
  unfold placeTree
  split
  · rfl
  · rw [foldl_preserves_length _ ?_, foldl_preserves_length _ ?_]
    · intro bb dy
      exact treeSet_length bb _ _ _ _
    · intro bb dy
      refine foldl_preserves_length _ ?_ _ _
      intro b2 dx
      refine foldl_preserves_length _ ?_ _ _
      intro b3 dz
      dsimp only
      repeat' split
      all_goals first
        | exact treeSet_length b3 _ _ _ _
        | rfl

theorem pass2_length (w : WorldGen) (cx cz : ℤ) (info : ℕ → ℤ × BiomeDef) :
    (pass2 w cx cz info).length = 16384 := by
  simp [pass2, CHUNK_SIZE, CHUNK_HEIGHT]

theorem generateChunk_length (w : WorldGen) (cx cz : ℤ) :
    (w.generateChunk cx cz).length = 16384 := by
  unfold WorldGen.generateChunk pass3
  rw [foldl_preserves_length _ ?_, pass2_length]
  intro b lx
  refine foldl_preserves_length _ ?_ _ _
  intro b2 lz
  dsimp only
  split
  · rfl
  · split
    · exact placeTree_length b2 _ _ _ _ _ _
    · rfl

theorem ensureChunk_snd_worldGen (st : GameState) (cx cz : ℤ) :
    (ensureChunk st cx cz).2.worldGen = st.worldGen := by
  unfold ensureChunk
  rcases h : mapGet st.chunks (chunkKey cx cz) <;> simp [h]

theorem ensureChunk_snd_sessions (st : GameState) (cx cz : ℤ) :
    (ensureChunk st cx cz).2.sessions = st.sessions := by
  unfold ensureChunk
  rcases h : mapGet st.chunks (chunkKey cx cz) <;> simp [h]

theorem ensureChunk_fst_length (st : GameState) (cx cz : ℤ) (hwf : ChunksWF st) :
    (ensureChunk st cx cz).1.length = 16384 := by
  unfold ensureChunk
  rcases h : mapGet st.chunks (chunkKey cx cz) with _ | d
  · simp [h, generateChunk_length]
  · simpa [h] using hwf _ _ h

theorem ensureChunk_wf (st : GameState) (cx cz : ℤ) (hwf : ChunksWF st) :
    ChunksWF (ensureChunk st cx cz).2 := by
  unfold ensureChunk
  rcases h : mapGet st.chunks (chunkKey cx cz) with _ | d
  · intro k c hk
    simp only [h] at hk
    by_cases he : k = chunkKey cx cz
    · subst he
      rw [mapGet_set_self] at hk
      cases hk
      exact generateChunk_length _ _ _
    · rw [mapGet_set_ne _ _ _ _ he] at hk
      exact hwf _ _ hk
  · simpa [h] using hwf

theorem ensureChunk_fst_idem (st : GameState) (cx cz : ℤ) :
    (ensureChunk (ensureChunk st cx cz).2 cx cz).1 = (ensureChunk st cx cz).1 := by
  unfold ensureChunk
  rcases h : mapGet st.chunks (chunkKey cx cz) with _ | d
  · simp [h, mapGet_set_self]
  · simp [h]

theorem ensureChunk_fst_after (st : GameState) (cx cz cx2 cz2 : ℤ) :
    (ensureChunk (ensureChunk st cx cz).2 cx2 cz2).1 = (ensureChunk st cx2 cz2).1 := by
  by_cases hk : chunkKey cx2 cz2 = chunkKey cx cz
  · obtain ⟨h1, h2⟩ := chunkKey_inj hk
    subst h1
    subst h2
    exact ensureChunk_fst_idem st _ _
  · unfold ensureChunk
    rcases h : mapGet st.chunks (chunkKey cx cz) with _ | d
    · simp only [h, mapGet_set_ne _ _ _ _ hk]
      rcases h2 : mapGet st.chunks (chunkKey cx2 cz2) with _ | d2 <;> simp [h2]
    · simp [h]

theorem getBlock_snd_eq (st : GameState) (x y z : ℤ) :
    (getBlock st x y z).2 =
      if y < 0 ∨ (CHUNK_HEIGHT : ℤ) ≤ y then st
      else (ensureChunk st (worldToChunk x) (worldToChunk z)).2 := by
  unfold getBlock
  split <;> rfl

theorem getBlock_fst_after_ensure (st : GameState) (cx cz x y z : ℤ) :
    (getBlock (ensureChunk st cx cz).2 x y z).1 = (getBlock st x y z).1 := by
  unfold getBlock
  split
  · rfl
  · simp only [ensureChunk_fst_after]

theorem getBlock_fst_after_getBlock (st : GameState) (x y z a b c : ℤ) :
    (getBlock (getBlock st x y z).2 a b c).1 = (getBlock st a b c).1 := by
  rw [getBlock_snd_eq]
  split
  · rfl
  · exact getBlock_fst_after_ensure st _ _ a b c

theorem getBlock_snd_sessions (st : GameState) (x y z : ℤ) :
    (getBlock st x y z).2.sessions = st.sessions := by
  rw [getBlock_snd_eq]
  split
  · rfl
  · exact ensureChunk_snd_sessions st _ _

theorem getBlock_wf (st : GameState) (x y z : ℤ) (hwf : ChunksWF st) :
    ChunksWF (getBlock st x y z).2 := by
  rw [getBlock_snd_eq]
  split
  · exact hwf
  · exact ensureChunk_wf st _ _ hwf

theorem setBlock_sessions (st : GameState) (x y z : ℤ) (b : ℕ) :
    (setBlock st x y z b).sessions = st.sessions := by
  unfold setBlock
  split
  · rfl
  · exact ensureChunk_snd_sessions st _ _

theorem flatIdx_lt (x z y : ℤ) (h0 : 0 ≤ y) (h1 : y < 64) :
    ((y * 16 + worldToLocal z) * 16 + worldToLocal x).toNat < 16384 := by
  have hx := worldToLocal_eq_emod x
  have hz := worldToLocal_eq_emod z
  omega

theorem ensureChunk_fst_of_some {st : GameState} {cx cz : ℤ} {c : List ℕ}
    (h : mapGet st.chunks (chunkKey cx cz) = some c) : (ensureChunk st cx cz).1 = c := by
  unfold ensureChunk
  rw [h]

theorem setBlock_chunks (st : GameState) (x y z : ℤ) (b : ℕ)
    (hc : ¬ (y < 0 ∨ (CHUNK_HEIGHT : ℤ) ≤ y)) :
    (setBlock st x y z b).chunks =
      mapSet (ensureChunk st (worldToChunk x) (worldToChunk z)).2.chunks
        (chunkKey (worldToChunk x) (worldToChunk z))
        ((ensureChunk st (worldToChunk x) (worldToChunk z)).1.set
          ((y * 16 + worldToLocal z) * 16 + worldToLocal x).toNat (b % 256)) := by
  unfold setBlock
  rw [if_neg hc]

theorem getBlock_fst_eq (st : GameState) (x y z : ℤ)
    (hc : ¬ (y < 0 ∨ (CHUNK_HEIGHT : ℤ) ≤ y)) :
    (getBlock st x y z).1 =
      (ensureChunk st (worldToChunk x) (worldToChunk z)).1.getD
        ((y * 16 + worldToLocal z) * 16 + worldToLocal x).toNat 0 := by
  unfold getBlock
  rw [if_neg hc]

theorem getBlock_after_setBlock_self (st : GameState) (x y z : ℤ) (b : ℕ)
    (hwf : ChunksWF st) (h0 : 0 ≤ y) (h1 : y < 64) :
    (getBlock (setBlock st x y z b) x y z).1 = b % 256 := by
  have hc : ¬ (y < 0 ∨ (CHUNK_HEIGHT : ℤ) ≤ y) := by
    simp only [CHUNK_HEIGHT]
    omega
  rw [getBlock_fst_eq _ _ _ _ hc]
  have hsome : mapGet (setBlock st x y z b).chunks
      (chunkKey (worldToChunk x) (worldToChunk z)) =
      some ((ensureChunk st (worldToChunk x) (worldToChunk z)).1.set
        ((y * 16 + worldToLocal z) * 16 + worldToLocal x).toNat (b % 256)) := by
    rw [setBlock_chunks st x y z b hc]
    exact mapGet_set_self _ _ _
  rw [ensureChunk_fst_of_some hsome, List.getD_eq_getElem?_getD,
    List.getElem?_set_self
      (by rw [ensureChunk_fst_length st _ _ hwf]; exact flatIdx_lt x z y h0 h1)]
  rfl

theorem ensureChunk_snd_dirty (st : GameState) (cx cz : ℤ) :
    (ensureChunk st cx cz).2.dirty = st.dirty := by
  unfold ensureChunk
  rcases h : mapGet st.chunks (chunkKey cx cz) <;> simp [h]

theorem getBlock_snd_dirty (st : GameState) (x y z : ℤ) :
    (getBlock st x y z).2.dirty = st.dirty := by
  rw [getBlock_snd_eq]
  split
  · rfl
  · exact ensureChunk_snd_dirty st _ _

theorem setBlock_out_of_range (st : GameState) (x y z : ℤ) (b : ℕ)
    (h : y < 0 ∨ (CHUNK_HEIGHT : ℤ) ≤ y) : setBlock st x y z b = st := by
  unfold setBlock
  rw [if_pos h]

theorem blocksGet_some_id {id : ℕ} {b : BlockDef} (h : blocksGet id = some b) :
    b.id = id ∧ b ∈ BLOCKS_LIST := by
  unfold blocksGet at h
  refine ⟨?_, List.mem_of_find?_eq_some h⟩
  have := List.find?_some h
  simpa using this

theorem isPlaceable_lt {id : ℕ} (h : isPlaceable id = true) : id < 64 := by
  unfold isPlaceable hasFlag at h
  rcases hb : blocksGet id with _ | b
  · rw [hb] at h
    cases h
  · obtain ⟨hid, hmem⟩ := blocksGet_some_id hb
    have hall : ∀ bb ∈ BLOCKS_LIST, bb.id < 64 := by decide
    have := hall b hmem
    omega

theorem ensureChunk_fst_congr (s1 s2 : GameState) (hw : s1.worldGen = s2.worldGen)
    (hc : s1.chunks = s2.chunks) (cx cz : ℤ) :
    (ensureChunk s1 cx cz).1 = (ensureChunk s2 cx cz).1 := by
  unfold ensureChunk
  rw [hc, hw]
  rcases h : mapGet s2.chunks (chunkKey cx cz) with _ | d <;> simp [h]

theorem getBlock_fst_congr (s1 s2 : GameState) (hw : s1.worldGen = s2.worldGen)
    (hc : s1.chunks = s2.chunks) (x y z : ℤ) :
    (getBlock s1 x y z).1 = (getBlock s2 x y z).1 := by
  unfold getBlock
  split
  · rfl
  · rw [ensureChunk_fst_congr s1 s2 hw hc]

theorem getBlock_fst_set_sessions (st : GameState) (ss : List Session) (x y z : ℤ) :
    (getBlock { st with sessions := ss } x y z).1 = (getBlock st x y z).1 :=
  getBlock_fst_congr { st with sessions := ss } st rfl rfl x y z

/-- C3. The Mine handler: a target that is air or whose type is not
mineable yields `ok: false` with INVALID_ARGUMENT, no broadcast, and the
world is unchanged (every block read in the final state returns exactly
what it returned before, and the session registry and dirty set are
untouched); a mineable non-air target yields `ok: true`, the effects carry
the mined block and its registry drop id, the block reads back as air, the
actor's blocks-mined counter is incremented (all other sessions unchanged)
and the block-update diff is broadcast to all sessions. -/
theorem actionMine_spec (st : GameState) (sid : ℕ) (x y z : ℤ)
    (hwf : ChunksWF st) :
    (((getBlock st x y z).1 = AIR ∨ isMineable (getBlock st x y z).1 = false) →
      (actionMine st sid x y z).2.1.ok = false ∧
      (actionMine st sid x y z).2.1.error = some ErrCode.INVALID_ARGUMENT ∧
      (∀ a b c : ℤ,
        (getBlock (actionMine st sid x y z).1 a b c).1 = (getBlock st a b c).1) ∧
      (actionMine st sid x y z).1.sessions = st.sessions ∧
      (actionMine st sid x y z).1.dirty = st.dirty ∧
      (actionMine st sid x y z).2.2 = []) ∧
    (((getBlock st x y z).1 ≠ AIR ∧ isMineable (getBlock st x y z).1 = true) →
      (actionMine st sid x y z).2.1.ok = true ∧
      (actionMine st sid x y z).2.1.effects =
        some ((getBlock st x y z).1, dropOf (getBlock st x y z).1) ∧
      (getBlock (actionMine st sid x y z).1 x y z).1 = AIR ∧
      (actionMine st sid x y z).1.sessions =
        updateSession st.sessions sid
          (fun s => { s with blocksMined := s.blocksMined + 1 }) ∧
      (actionMine st sid x y z).2.2 = [Msg.blockUpdate x y z AIR]) := by
  constructor
  · intro h
    unfold actionMine
    rw [if_pos h]
    exact ⟨rfl, rfl, fun a b c => getBlock_fst_after_getBlock st x y z a b c,
      getBlock_snd_sessions st x y z, getBlock_snd_dirty st x y z, rfl⟩
  · rintro ⟨h1, h2⟩
    have hcond : ¬ ((getBlock st x y z).1 = AIR ∨
        isMineable (getBlock st x y z).1 = false) := by
      push_neg
      exact ⟨h1, by simp [h2]⟩
    have hy : ¬ (y < 0 ∨ (CHUNK_HEIGHT : ℤ) ≤ y) := by
      intro hy
      apply h1
      unfold getBlock
      rw [if_pos hy]
    unfold actionMine
    rw [if_neg hcond]
    refine ⟨rfl, rfl, ?_, ?_, rfl⟩
    · have hstep : (getBlock (setBlock (getBlock st x y z).2 x y z AIR) x y z).1 = AIR := by
        rw [getBlock_after_setBlock_self _ x y z AIR
          (getBlock_wf st x y z hwf)
          (by simp only [CHUNK_HEIGHT] at hy; omega)
          (by simp only [CHUNK_HEIGHT] at hy; omega)]
        rfl
      exact Eq.trans
        (getBlock_fst_set_sessions (setBlock (getBlock st x y z).2 x y z AIR)
          (updateSession (setBlock (getBlock st x y z).2 x y z AIR).sessions sid (fun s => { s with blocksMined := s.blocksMined + 1 })) x y z)
        hstep
    · show updateSession (setBlock (getBlock st x y z).2 x y z AIR).sessions sid _ =
        updateSession st.sessions sid _
      rw [setBlock_sessions, getBlock_snd_sessions]

/-- Concrete world for the Mine witness: the chunk at (0, 0) cached with an
all-stone array, one session with account id 7. -/
def chunkAllStone : List ℕ := List.replicate 16384 STONE

def sessW : Session := ⟨7, (0, 0, 0), 0, 0, [], none, none⟩

def stMine : GameState :=
  ⟨WorldGen.init 42, [(chunkKey 0 0, chunkAllStone)], [], [sessW]⟩

theorem stMine_wf : ChunksWF stMine := by
  intro k c h
  have hch : stMine.chunks = [(chunkKey 0 0, chunkAllStone)] := rfl
  rw [hch] at h
  simp only [mapGet] at h
  split at h
  · cases h
    rw [chunkAllStone]
    exact List.length_replicate 16384 STONE
  · cases h

/-- Witness for C3: mining the stone block at (0, 1, 0). -/
theorem actionMine_spec_witness :
    (actionMine stMine 7 0 1 0).2.1.ok = true ∧
    (actionMine stMine 7 0 1 0).2.1.effects = some (STONE, STONE) ∧
    (getBlock (actionMine stMine 7 0 1 0).1 0 1 0).1 = AIR ∧
    (actionMine stMine 7 0 1 0).2.2 = [Msg.blockUpdate 0 1 0 AIR] := by
  have hb : (getBlock stMine 0 1 0).1 = STONE := by decide
  obtain ⟨hok, heff, hread, hsess, hmsg⟩ :=
    (actionMine_spec stMine 7 0 1 0 stMine_wf).2
      ⟨by rw [hb]; decide, by rw [hb]; decide⟩
  refine ⟨hok, ?_, hread, hmsg⟩
  rw [heff, hb]
  rfl

/-- Concrete world for the Place theorems: the chunk at (0, 0) cached with
an all-air array, one session with account id 7. -/
def chunkAllAir : List ℕ := List.replicate 16384 AIR

def stPlace : GameState :=
  ⟨WorldGen.init 42, [(chunkKey 0 0, chunkAllAir)], [], [sessW]⟩

theorem stPlace_wf : ChunksWF stPlace := by
  intro k c h
  have hch : stPlace.chunks = [(chunkKey 0 0, chunkAllAir)] := rfl
  rw [hch] at h
  simp only [mapGet] at h
  split at h
  · cases h
    rw [chunkAllAir]
    exact List.length_replicate 16384 AIR
  · cases h

/-- Counterexample to C4 as stated: placing stone at the out-of-range
vertical coordinate y = 64 targets a coordinate that reads as air with a
placeable type, and the handler answers `ok: true`, yet a subsequent read
at that coordinate still returns air, not the placed id (the out-of-range
write is a no-op in `_setBlock`). -/
theorem actionPlace_out_of_range_counterexample :
    isPlaceable STONE = true ∧
    (getBlock stPlace 0 64 0).1 = AIR ∧
    isSolid (getBlock stPlace 0 64 0).1 = false ∧
    (actionPlace stPlace 7 0 64 0 STONE).2.1.ok = true ∧
    (getBlock (actionPlace stPlace 7 0 64 0 STONE).1 0 64 0).1 = AIR ∧
    AIR ≠ STONE := by
  decide

/-- C4 (amended). The Place handler: a non-placeable block id yields
`ok: false` with INVALID_ARGUMENT and leaves the state untouched; a solid
target yields `ok: false` with CONFLICT and the world is observably
unchanged; otherwise the action reports success, broadcasts the diff and
increments the actor's placed counter, and — provided the target's
vertical coordinate is inside [0, 64) — a subsequent read at the target
returns the placed id; at an out-of-range vertical coordinate the write is
a no-op and every read returns what it returned before. -/
theorem actionPlace_spec (st : GameState) (sid : ℕ) (x y z : ℤ) (blockId : ℕ)
    (hwf : ChunksWF st) :
    (isPlaceable blockId = false →
      (actionPlace st sid x y z blockId).2.1.ok = false ∧
      (actionPlace st sid x y z blockId).2.1.error = some ErrCode.INVALID_ARGUMENT ∧
      (actionPlace st sid x y z blockId).1 = st ∧
      (actionPlace st sid x y z blockId).2.2 = []) ∧
    (isPlaceable blockId = true → isSolid (getBlock st x y z).1 = true →
      (actionPlace st sid x y z blockId).2.1.ok = false ∧
      (actionPlace st sid x y z blockId).2.1.error = some ErrCode.CONFLICT ∧
      (∀ a b c : ℤ,
        (getBlock (actionPlace st sid x y z blockId).1 a b c).1 = (getBlock st a b c).1) ∧
      (actionPlace st sid x y z blockId).1.sessions = st.sessions ∧
      (actionPlace st sid x y z blockId).2.2 = []) ∧
    (isPlaceable blockId = true → isSolid (getBlock st x y z).1 = false →
      (actionPlace st sid x y z blockId).2.1.ok = true ∧
      (actionPlace st sid x y z blockId).2.2 = [Msg.blockUpdate x y z blockId] ∧
      (actionPlace st sid x y z blockId).1.sessions =
        updateSession st.sessions sid
          (fun s => { s with blocksPlaced := s.blocksPlaced + 1 }) ∧
      (0 ≤ y → y < 64 →
        (getBlock (actionPlace st sid x y z blockId).1 x y z).1 = blockId) ∧
      ((y < 0 ∨ 64 ≤ y) → ∀ a b c : ℤ,
        (getBlock (actionPlace st sid x y z blockId).1 a b c).1 = (getBlock st a b c).1)) := by
  refine ⟨?_, ?_, ?_⟩
  · intro h
    unfold actionPlace
    rw [if_pos h]
    exact ⟨rfl, rfl, rfl, rfl⟩
  · intro h1 h2
    unfold actionPlace
    rw [if_neg (by simp [h1]), if_pos h2]
    exact ⟨rfl, rfl, fun a b c => getBlock_fst_after_getBlock st x y z a b c,
      getBlock_snd_sessions st x y z, rfl⟩
  · intro h1 h2
    unfold actionPlace
    rw [if_neg (by simp [h1]), if_neg (by simp [h2])]
    refine ⟨rfl, rfl, ?_, ?_, ?_⟩
    · show updateSession (setBlock (getBlock st x y z).2 x y z blockId).sessions sid _ =
        updateSession st.sessions sid _
      rw [setBlock_sessions, getBlock_snd_sessions]
    · intro hy0 hy1
      have hstep : (getBlock (setBlock (getBlock st x y z).2 x y z blockId) x y z).1 =
          blockId := by
        rw [getBlock_after_setBlock_self _ x y z blockId
          (getBlock_wf st x y z hwf) hy0 hy1]
        exact Nat.mod_eq_of_lt (by have := isPlaceable_lt h1; omega)
      exact Eq.trans
        (getBlock_fst_set_sessions (setBlock (getBlock st x y z).2 x y z blockId)
          (updateSession (setBlock (getBlock st x y z).2 x y z blockId).sessions sid (fun s => { s with blocksPlaced := s.blocksPlaced + 1 })) x y z)
        hstep
    · intro hy a b c
      have hstep : (getBlock (setBlock (getBlock st x y z).2 x y z blockId) a b c).1 =
          (getBlock st a b c).1 := by
        rw [setBlock_out_of_range _ x y z blockId (by simp only [CHUNK_HEIGHT]; omega)]
        exact getBlock_fst_after_getBlock st x y z a b c
      exact Eq.trans
        (getBlock_fst_set_sessions (setBlock (getBlock st x y z).2 x y z blockId)
          (updateSession (setBlock (getBlock st x y z).2 x y z blockId).sessions sid (fun s => { s with blocksPlaced := s.blocksPlaced + 1 })) a b c)
        hstep

/-- Witness for the amended C4: placing stone into air at (0, 1, 0)
succeeds and reads back as stone. -/
theorem actionPlace_spec_witness :
    (actionPlace stPlace 7 0 1 0 STONE).2.1.ok = true ∧
    (getBlock (actionPlace stPlace 7 0 1 0 STONE).1 0 1 0).1 = STONE ∧
    (actionPlace stPlace 7 0 1 0 STONE).2.2 = [Msg.blockUpdate 0 1 0 STONE] := by
  obtain ⟨hok, hmsg, hsess, hread, _⟩ :=
    (actionPlace_spec stPlace 7 0 1 0 STONE stPlace_wf).2.2 (by decide) (by decide)
  exact ⟨hok, hread (by norm_num) (by norm_num), hmsg⟩

/-! ## Persistence (server/src/persistence.js)

The chunk directory is modeled as an association list from filename to raw
byte list; `writeFileSync` is `mapSet` (overwrite or create), `readdirSync`
iterates the list. `String.replace(pat, rep)` replaces the first occurrence
only, as in JS. -/

/-- First-occurrence replacement on character lists (JS `String.replace`
with a string pattern). -/
def replaceFirstL : List Char → List Char → List Char → List Char
  | [], _, _ => []
  | c :: t, pat, rep =>
    if pat.isPrefixOf (c :: t) then rep ++ (c :: t).drop pat.length
    else c :: replaceFirstL t pat rep

/-- JS `s.replace(pat, rep)` for plain string patterns. -/
def jsReplace (s pat rep : String) : String :=
  ⟨replaceFirstL s.data pat.data rep.data⟩

/-- JS `s.endsWith(pat)`. -/
def strEndsWith (s pat : String) : Bool := pat.data.isSuffixOf s.data

/-- Per-chunk filename, `${key.replace(',', '_')}.bin`. -/
def fileOfKey (key : String) : String := jsReplace key "," "_" ++ ".bin"

/-- Chunk key recovered from a filename,
`file.replace('.bin', '').replace('_', ',')`. -/
def keyOfFile (f : String) : String := jsReplace (jsReplace f ".bin" "") "_" ","

/-- `Persistence.flushChunks(chunks)`: write the raw bytes of every dirty
key that is present in the in-memory chunk map to its per-chunk file,
skipping dirty keys without data. -/
def flushStep (chunks : List (String × List ℕ)) (f : List (String × List ℕ))
    (k : String) : List (String × List ℕ) :=
  match mapGet chunks k with
  | some data => mapSet f (fileOfKey k) data
  | none => f

def flushChunks (dirty : List String) (chunks fs : List (String × List ℕ)) :
    List (String × List ℕ) :=
  dirty.foldl (flushStep chunks) fs

/-- `Persistence.loadAllChunks()`: scan the directory for `.bin` files and
build a fresh in-memory store keyed by the decoded chunk key. -/
def loadStep (m : List (String × List ℕ)) (e : String × List ℕ) :
    List (String × List ℕ) :=
  if strEndsWith e.1 ".bin" then mapSet m (keyOfFile e.1) e.2 else m

def loadAllChunks (fs : List (String × List ℕ)) : List (String × List ℕ) :=
  fs.foldl loadStep []

/-- A well-formed chunk key, i.e. one actually produced by `chunkKey`. -/
def WfKey (k : String) : Prop := ∃ a b : ℤ, k = chunkKey a b

theorem underscore_not_mem_intRepr (i : ℤ) : '_' ∉ (Int.repr i).data := by
  intro hc
  rcases intRepr_chars i '_' hc with h | h
  · exact absurd h (by decide)
  · exact absurd h (by decide)

theorem dot_not_mem_intRepr (i : ℤ) : '.' ∉ (Int.repr i).data := by
  intro hc
  rcases intRepr_chars i '.' hc with h | h
  · exact absurd h (by decide)
  · exact absurd h (by decide)

theorem chunkKey_data (a b : ℤ) :
    (chunkKey a b).data = (Int.repr a).data ++ ',' :: (Int.repr b).data := by
  unfold chunkKey
  simp only [String.data_append]
  rw [List.append_assoc]
  rfl

/-- Replacing the first occurrence of a single separator character that
does not occur in the prefix. -/
theorem rf_char (A : List Char) : ∀ (B : List Char) (c r : Char), c ∉ A →
    replaceFirstL (A ++ c :: B) [c] [r] = A ++ r :: B := by
  induction A with
  | nil =>
    intro B c r _
    simp [replaceFirstL, List.isPrefixOf]
  | cons x xs ih =>
    intro B c r hc
    have hx : ¬ (c == x) = true := by
      simp only [beq_iff_eq]
      intro h
      exact hc (h ▸ List.mem_cons_self x xs)
    simp only [List.cons_append, replaceFirstL, List.isPrefixOf, Bool.and_eq_true]
    rw [if_neg (by simp [hx])]
    simp only [List.append_eq]
    rw [ih B c r (fun hm => hc (List.mem_cons_of_mem x hm))]

/-- Stripping a terminal `.bin` whose leading dot does not occur earlier. -/
theorem rf_bin (C : List Char) (hC : '.' ∉ C) :
    replaceFirstL (C ++ ['.', 'b', 'i', 'n']) ['.', 'b', 'i', 'n'] [] = C := by
  induction C with
  | nil => simp [replaceFirstL, List.isPrefixOf]
  | cons x xs ih =>
    have hx : ¬ ('.' == x) = true := by
      simp only [beq_iff_eq]
      intro h
      exact hC (h ▸ List.mem_cons_self x xs)
    simp only [List.cons_append, replaceFirstL, List.isPrefixOf, Bool.and_eq_true]
    rw [if_neg (by simp [hx])]
    simp only [List.append_eq]
    rw [ih (fun hm => hC (List.mem_cons_of_mem x hm))]

theorem fileOfKey_data (a b : ℤ) :
    (fileOfKey (chunkKey a b)).data =
      ((Int.repr a).data ++ '_' :: (Int.repr b).data) ++ ['.', 'b', 'i', 'n'] := by
  unfold fileOfKey jsReplace
  rw [String.data_append]
  have h1 : (chunkKey a b).data = (Int.repr a).data ++ ',' :: (Int.repr b).data :=
    chunkKey_data a b
  rw [h1]
  rw [show ("," : String).data = [','] from rfl, show ("_" : String).data = ['_'] from rfl]
  rw [rf_char _ _ ',' '_' (comma_not_mem_intRepr a)]

theorem keyOfFile_fileOfKey {k : String} (hk : WfKey k) :
    keyOfFile (fileOfKey k) = k := by
  obtain ⟨a, b, rfl⟩ := hk
  apply String.ext
  unfold keyOfFile jsReplace
  show replaceFirstL (replaceFirstL (fileOfKey (chunkKey a b)).data
    (".bin" : String).data ("" : String).data) _ _ = _
  rw [fileOfKey_data a b]
  rw [show (".bin" : String).data = ['.', 'b', 'i', 'n'] from rfl,
    show ("" : String).data = [] from rfl,
    show ("_" : String).data = ['_'] from rfl,
    show ("," : String).data = [','] from rfl]
  rw [rf_bin _ (by
    intro hm
    rcases List.mem_append.mp hm with h | h
    · exact dot_not_mem_intRepr a h
    · rcases List.mem_cons.mp h with h2 | h2
      · exact absurd h2 (by decide)
      · exact dot_not_mem_intRepr b h2)]
  rw [rf_char _ _ '_' ',' (underscore_not_mem_intRepr a)]
  rw [chunkKey_data a b]

theorem fileOfKey_inj {k1 k2 : String} (h1 : WfKey k1) (h2 : WfKey k2)
    (h : fileOfKey k1 = fileOfKey k2) : k1 = k2 := by
  have := congrArg keyOfFile h
  rwa [keyOfFile_fileOfKey h1, keyOfFile_fileOfKey h2] at this

theorem fileOfKey_endsWith {k : String} (hk : WfKey k) :
    strEndsWith (fileOfKey k) ".bin" = true := by
  obtain ⟨a, b, rfl⟩ := hk
  unfold strEndsWith
  rw [show (".bin" : String).data = ['.', 'b', 'i', 'n'] from rfl, fileOfKey_data a b]
  exact List.isSuffixOf_iff_suffix.mpr ⟨_, rfl⟩

theorem mapGet_none_of_not_mem {α : Type} (m : List (String × α)) (k : String)
    (h : k ∉ m.map Prod.fst) : mapGet m k = none := by
  induction m with
  | nil => rfl
  | cons e t ih =>
    have he : ¬ e.1 = k := fun hh => h (by simp [hh])
    simp only [mapGet, if_neg he]
    exact ih (fun hm => h (List.mem_cons_of_mem _ hm))

theorem mapSet_name_mem {α : Type} (m : List (String × α)) (k : String) (v : α)
    (n : String) (h : n ∈ (mapSet m k v).map Prod.fst) :
    n = k ∨ n ∈ m.map Prod.fst := by
  induction m with
  | nil => simpa [mapSet] using h
  | cons e t ih =>
    by_cases he : e.1 = k
    · simp only [mapSet, if_pos he, List.map_cons, List.mem_cons] at h
      rcases h with h | h
      · exact Or.inl h
      · exact Or.inr (by simp [h])
    · simp only [mapSet, if_neg he, List.map_cons, List.mem_cons] at h
      rcases h with h | h
      · exact Or.inr (by simp [h])
      · rcases ih h with h2 | h2
        · exact Or.inl h2
        · exact Or.inr (by simp [h2])

theorem mapSet_names_nodup {α : Type} (m : List (String × α)) (k : String) (v : α)
    (h : (m.map Prod.fst).Nodup) : ((mapSet m k v).map Prod.fst).Nodup := by
  induction m with
  | nil => simp [mapSet]
  | cons e t ih =>
    simp only [List.map_cons, List.nodup_cons] at h
    by_cases he : e.1 = k
    · simp only [mapSet, if_pos he, List.map_cons, List.nodup_cons]
      exact ⟨he ▸ h.1, h.2⟩
    · simp only [mapSet, if_neg he, List.map_cons, List.nodup_cons]
      refine ⟨?_, ih h.2⟩
      intro hm
      rcases mapSet_name_mem t k v e.1 hm with h2 | h2
      · exact he h2
      · exact h.1 h2

theorem flushChunks_entry_names (dirty : List String)
    (chunks : List (String × List ℕ)) :
    ∀ (fs : List (String × List ℕ)),
    (∀ k ∈ dirty, WfKey k) →
    (∀ n ∈ fs.map Prod.fst, ∃ k2, WfKey k2 ∧ n = fileOfKey k2) →
    ∀ n ∈ (flushChunks dirty chunks fs).map Prod.fst,
      ∃ k2, WfKey k2 ∧ n = fileOfKey k2 := by
  induction dirty with
  | nil => intro fs _ hfs; exact hfs
  | cons k0 rest ih =>
    intro fs hd hfs
    have hstep : ∀ n ∈ (flushStep chunks fs k0).map Prod.fst,
        ∃ k2, WfKey k2 ∧ n = fileOfKey k2 := by
      unfold flushStep
      rcases hg : mapGet chunks k0 with _ | d
      · exact hfs
      · intro n hn
        rcases mapSet_name_mem fs (fileOfKey k0) d n hn with h | h
        · exact ⟨k0, hd k0 (List.mem_cons_self _ _), h⟩
        · exact hfs n h
    exact ih (flushStep chunks fs k0)
      (fun k hk => hd k (List.mem_cons_of_mem _ hk)) hstep

theorem flushChunks_nodup (dirty : List String) (chunks : List (String × List ℕ)) :
    ∀ (fs : List (String × List ℕ)), (fs.map Prod.fst).Nodup →
    ((flushChunks dirty chunks fs).map Prod.fst).Nodup := by
  induction dirty with
  | nil => intro fs h; exact h
  | cons k0 rest ih =>
    intro fs h
    refine ih (flushStep chunks fs k0) ?_
    unfold flushStep
    rcases hg : mapGet chunks k0 with _ | d
    · exact h
    · exact mapSet_names_nodup fs _ d h

theorem flushChunks_preserve (chunks : List (String × List ℕ)) (key : String)
    (hkey : WfKey key) :
    ∀ (rest : List String) (f : List (String × List ℕ)),
    key ∉ rest → (∀ k ∈ rest, WfKey k) →
    mapGet (flushChunks rest chunks f) (fileOfKey key) = mapGet f (fileOfKey key) := by
  intro rest
  induction rest with
  | nil => intro f _ _; rfl
  | cons k0 t ih =>
    intro f hnm hwf
    have hne : fileOfKey key ≠ fileOfKey k0 := by
      intro he
      exact hnm (by rw [fileOfKey_inj hkey (hwf k0 (List.mem_cons_self _ _)) he]; exact List.mem_cons_self _ _)
    have hstep : mapGet (flushStep chunks f k0) (fileOfKey key) = mapGet f (fileOfKey key) := by
      unfold flushStep
      rcases hg : mapGet chunks k0 with _ | d
      · rfl
      · exact mapGet_set_ne f _ _ d hne
    rw [show flushChunks (k0 :: t) chunks f = flushChunks t chunks (flushStep chunks f k0) from rfl,
      ih (flushStep chunks f k0) (fun hm => hnm (List.mem_cons_of_mem _ hm))
        (fun k hk => hwf k (List.mem_cons_of_mem _ hk)), hstep]

theorem flushChunks_get (chunks : List (String × List ℕ)) (key : String)
    (data : List ℕ) (hdata : mapGet chunks key = some data) :
    ∀ (dirty : List String) (fs : List (String × List ℕ)),
    key ∈ dirty → (∀ k ∈ dirty, WfKey k) →
    mapGet (flushChunks dirty chunks fs) (fileOfKey key) = some data := by
  intro dirty
  induction dirty with
  | nil => intro fs hmem; cases hmem
  | cons k0 rest ih =>
    intro fs hmem hwf
    by_cases hr : key ∈ rest
    · exact ih (flushStep chunks fs k0) hr (fun k hk => hwf k (List.mem_cons_of_mem _ hk))
    · have hk0 : key = k0 := by
        rcases List.mem_cons.mp hmem with h | h
        · exact h
        · exact absurd h hr
      subst hk0
      rw [show flushChunks (key :: rest) chunks fs
          = flushChunks rest chunks (flushStep chunks fs key) from rfl,
        flushChunks_preserve chunks key (hwf key (List.mem_cons_self _ _)) rest _ hr
          (fun k hk => hwf k (List.mem_cons_of_mem _ hk))]
      unfold flushStep
      rw [hdata]
      exact mapGet_set_self _ _ _

theorem loadAll_go (key : String) (data : List ℕ) (hkey : WfKey key) :
    ∀ (l acc : List (String × List ℕ)),
    (∀ n ∈ l.map Prod.fst, ∃ k2, WfKey k2 ∧ n = fileOfKey k2) →
    (l.map Prod.fst).Nodup →
    (mapGet l (fileOfKey key) = some data ∨
      (fileOfKey key ∉ l.map Prod.fst ∧ mapGet acc key = some data)) →
    mapGet (l.foldl loadStep acc) key = some data := by
  intro l
  induction l with
  | nil =>
    intro acc _ _ hinv
    rcases hinv with h | ⟨_, h⟩
    · cases h
    · exact h
  | cons e t ih =>
    intro acc hwf hnd hinv
    rw [List.foldl_cons]
    obtain ⟨k2, hk2, he1⟩ := hwf e.1 (by simp)
    simp only [List.map_cons, List.nodup_cons] at hnd
    by_cases hek : e.1 = fileOfKey key
    · have hleft : mapGet (e :: t) (fileOfKey key) = some data := by
        rcases hinv with h | ⟨hnm, _⟩
        · exact h
        · exact absurd (by simp [hek]) hnm
      have hval : e.2 = data := by
        simp only [mapGet, if_pos hek] at hleft
        cases hleft
        rfl
      have hstepv : loadStep acc e = mapSet acc key data := by
        unfold loadStep
        rw [if_pos (hek ▸ fileOfKey_endsWith hkey), hek, keyOfFile_fileOfKey hkey, hval]
      rw [hstepv]
      refine ih (mapSet acc key data) (fun n hn => hwf n (by simp [hn])) hnd.2 (Or.inr ⟨?_, mapGet_set_self _ _ _⟩)
      rw [← hek]
      exact hnd.1
    · have hk2key : k2 ≠ key := by
        intro hh
        exact hek (by rw [he1, hh])
      have hstep : mapGet (loadStep acc e) key = mapGet acc key := by
        unfold loadStep
        split
        · rw [he1, keyOfFile_fileOfKey hk2]
          exact mapGet_set_ne acc k2 key e.2 (fun hh => hk2key hh.symm)
        · rfl
      refine ih (loadStep acc e) (fun n hn => hwf n (by simp [hn])) hnd.2 ?_
      rcases hinv with h | ⟨hnm, hacc⟩
      · refine Or.inl ?_
        simpa only [mapGet, if_neg hek] using h
      · refine Or.inr ⟨fun hm => hnm (by simp [hm]), by rw [hstep]; exact hacc⟩

/-- C5. Persistence round-trip: for every chunk key marked dirty whose data
is present in the in-memory chunk map, flushing to disk and then loading
all chunks into a fresh store yields, under that same key, a byte-identical
array. The directory may already hold other chunk files (well-formed,
distinct names); `flushChunks` only adds or overwrites per-chunk files. -/
theorem persistence_roundtrip (dirty : List String)
    (chunks fs : List (String × List ℕ)) (key : String) (data : List ℕ)
    (hmem : key ∈ dirty) (hdata : mapGet chunks key = some data)
    (hwfd : ∀ k ∈ dirty, WfKey k)
    (hwffs : ∀ n ∈ fs.map Prod.fst, ∃ k2, WfKey k2 ∧ n = fileOfKey k2)
    (hnd : (fs.map Prod.fst).Nodup) :
    mapGet (loadAllChunks (flushChunks dirty chunks fs)) key = some data := by
  have hkey : WfKey key := hwfd key hmem
  have h1 := flushChunks_get chunks key data hdata dirty fs hmem hwfd
  have h2 := flushChunks_entry_names dirty chunks fs hwfd hwffs
  have h3 := flushChunks_nodup dirty chunks fs hnd
  unfold loadAllChunks
  exact loadAll_go key data hkey _ [] h2 h3 (Or.inl h1)

/-- Witness for C5: one dirty chunk with two bytes of data, empty
directory. -/
theorem persistence_roundtrip_witness :
    mapGet (loadAllChunks (flushChunks [chunkKey 0 0]
      [(chunkKey 0 0, [7, 7])] [])) (chunkKey 0 0) = some [7, 7] := by
  refine persistence_roundtrip [chunkKey 0 0] [(chunkKey 0 0, [7, 7])] []
    (chunkKey 0 0) [7, 7] (List.mem_singleton.mpr rfl) (by decide) ?_ ?_ ?_
  · intro k hk
    rw [List.mem_singleton.mp hk]
    exact ⟨0, 0, rfl⟩
  · intro n hn
    cases hn
  · simp

/-! ## Chunk streaming (game-server.js `_onWorldJoin`, `_actionMove`) -/

/-- Chunk key of a coordinate pair. -/
def keyP (p : ℤ × ℤ) : String := chunkKey p.1 p.2

/-- The square of chunk coordinates visited by the nested
`for dx in -RENDER_DISTANCE..RENDER_DISTANCE, dz in ...` loops, in loop
order: exactly the Chebyshev ball of radius 6 around `(pcx, pcz)`. -/
def chebList (pcx pcz : ℤ) : List (ℤ × ℤ) :=
  (rangeZ (-RENDER_DISTANCE) RENDER_DISTANCE).flatMap (fun dx =>
    (rangeZ (-RENDER_DISTANCE) RENDER_DISTANCE).map (fun dz => (pcx + dx, pcz + dz)))

/-- One iteration of the join loop: record the key as sent and send the
(ensured) chunk. -/
def joinStep (acc : GameState × Session × List Msg) (p : ℤ × ℤ) :
    GameState × Session × List Msg :=
  ((ensureChunk acc.1 p.1 p.2).2,
   { acc.2.1 with sentChunks := setAdd acc.2.1.sentChunks (chunkKey p.1 p.2) },
   acc.2.2 ++ [Msg.worldChunk p.1 p.2 (ensureChunk acc.1 p.1 p.2).1])

/-- The chunk-streaming portion of `_onWorldJoin`: set the last chunk
coordinate to the spawn chunk and send every chunk of the Chebyshev ball. -/
def joinStream (st : GameState) (sess : Session) : GameState × Session × List Msg :=
  (chebList ⌊sess.pos.1 / 16⌋ ⌊sess.pos.2.2 / 16⌋).foldl joinStep
    (st, { sess with lastCX := some ⌊sess.pos.1 / 16⌋, lastCZ := some ⌊sess.pos.2.2 / 16⌋ }, [])

/-- One iteration of the movement streaming loop: skip keys already sent to
this session, otherwise record and send. -/
def moveStep (acc : GameState × Session × List Msg) (p : ℤ × ℤ) :
    GameState × Session × List Msg :=
  if chunkKey p.1 p.2 ∈ acc.2.1.sentChunks then acc
  else
    ((ensureChunk acc.1 p.1 p.2).2,
     { acc.2.1 with sentChunks := setAdd acc.2.1.sentChunks (chunkKey p.1 p.2) },
     acc.2.2 ++ [Msg.worldChunk p.1 p.2 (ensureChunk acc.1 p.1 p.2).1])

/-- Move handler `_actionMove`: overwrite the position, and when the
containing chunk coordinate changed, stream the not-yet-sent chunks of the
new Chebyshev ball; always broadcast the movement. -/
def actionMove (st : GameState) (sess : Session) (x y z : ℚ) :
    GameState × Session × List Msg :=
  if sess.lastCX ≠ some ⌊x / 16⌋ ∨ sess.lastCZ ≠ some ⌊z / 16⌋ then
    (((chebList ⌊x / 16⌋ ⌊z / 16⌋).foldl moveStep
        (st, { sess with pos := (x, y, z), lastCX := some ⌊x / 16⌋, lastCZ := some ⌊z / 16⌋ }, [])).1,
     ((chebList ⌊x / 16⌋ ⌊z / 16⌋).foldl moveStep
        (st, { sess with pos := (x, y, z), lastCX := some ⌊x / 16⌋, lastCZ := some ⌊z / 16⌋ }, [])).2.1,
     ((chebList ⌊x / 16⌋ ⌊z / 16⌋).foldl moveStep
        (st, { sess with pos := (x, y, z), lastCX := some ⌊x / 16⌋, lastCZ := some ⌊z / 16⌋ }, [])).2.2
       ++ [Msg.playerMove sess.accountId (x, y, z)])
  else
    (st, { sess with pos := (x, y, z) }, [Msg.playerMove sess.accountId (x, y, z)])

/-- Chunk keys carried by the `world-chunk` messages of an output list. -/
def chunkMsgKeys : List Msg → List String
  | [] => []
  | Msg.worldChunk cx cz _ :: t => chunkKey cx cz :: chunkMsgKeys t
  | _ :: t => chunkMsgKeys t

theorem chunkMsgKeys_append (a b : List Msg) :
    chunkMsgKeys (a ++ b) = chunkMsgKeys a ++ chunkMsgKeys b := by
  induction a with
  | nil => rfl
  | cons m t ih =>
    cases m <;> simp [chunkMsgKeys, ih]

theorem setAdd_mem (s : List String) (k0 k : String) :
    k ∈ setAdd s k0 ↔ k ∈ s ∨ k = k0 := by
  unfold setAdd
  split
  · rename_i h
    constructor
    · exact Or.inl
    · rintro (hh | rfl)
      · exact hh
      · exact h
  · simp

theorem rangeZ_mem (lo hi a : ℤ) : a ∈ rangeZ lo hi ↔ lo ≤ a ∧ a ≤ hi := by
  unfold rangeZ
  rw [List.mem_map]
  constructor
  · rintro ⟨k, hk, rfl⟩
    rw [List.mem_range] at hk
    omega
  · rintro ⟨h1, h2⟩
    refine ⟨(a - lo).toNat, ?_, ?_⟩
    · rw [List.mem_range]
      omega
    · omega

theorem rangeZ_nodup (lo hi : ℤ) : (rangeZ lo hi).Nodup := by
  unfold rangeZ
  exact List.Nodup.map (fun a b h => by omega) (List.nodup_range _)

theorem chebList_mem (pcx pcz a b : ℤ) :
    (a, b) ∈ chebList pcx pcz ↔
      -6 ≤ a - pcx ∧ a - pcx ≤ 6 ∧ -6 ≤ b - pcz ∧ b - pcz ≤ 6 := by
  unfold chebList
  simp only [List.mem_flatMap, List.mem_map, rangeZ_mem, RENDER_DISTANCE, Prod.mk.injEq]
  constructor
  · rintro ⟨dx, ⟨h1, h2⟩, dz, ⟨h3, h4⟩, h5, h6⟩
    omega
  · rintro ⟨h1, h2, h3, h4⟩
    exact ⟨a - pcx, ⟨by omega, by omega⟩, b - pcz, ⟨by omega, by omega⟩, by omega, by omega⟩

theorem chebList_nodup (pcx pcz : ℤ) : (chebList pcx pcz).Nodup := by
  unfold chebList
  rw [List.nodup_flatMap]
  refine ⟨fun dx _ => List.Nodup.map (fun a b h => by
    have := (Prod.mk.injEq ..).mp h
    omega) (rangeZ_nodup _ _), ?_⟩
  refine List.Pairwise.imp ?_ (rangeZ_nodup (-RENDER_DISTANCE) RENDER_DISTANCE)
  intro dx1 dx2 hne p hp1 hp2
  simp only [List.mem_map] at hp1 hp2
  obtain ⟨dz1, _, h1⟩ := hp1
  obtain ⟨dz2, _, h2⟩ := hp2
  have := (Prod.mk.injEq ..).mp (h1.trans h2.symm)
  exact hne (by omega)

theorem keyP_inj {p q : ℤ × ℤ} (h : keyP p = keyP q) : p = q := by
  obtain ⟨h1, h2⟩ := chunkKey_inj h
  exact Prod.ext h1 h2

theorem chebKeys_nodup (pcx pcz : ℤ) : ((chebList pcx pcz).map keyP).Nodup :=
  List.Nodup.map (fun a b h => keyP_inj h) (chebList_nodup pcx pcz)

theorem chebKeys_mem (pcx pcz a b : ℤ) :
    chunkKey a b ∈ (chebList pcx pcz).map keyP ↔
      -6 ≤ a - pcx ∧ a - pcx ≤ 6 ∧ -6 ≤ b - pcz ∧ b - pcz ≤ 6 := by
  rw [← chebList_mem]
  constructor
  · rintro hm
    rw [List.mem_map] at hm
    obtain ⟨p, hp, he⟩ := hm
    obtain ⟨h1, h2⟩ := chunkKey_inj he.symm
    rwa [show p = (a, b) from Prod.ext h1.symm h2.symm] at hp
  · intro hm
    exact List.mem_map_of_mem keyP hm

theorem joinFold_msgs (l : List (ℤ × ℤ)) :
    ∀ (st : GameState) (sess : Session) (msgs : List Msg),
    chunkMsgKeys ((l.foldl joinStep (st, sess, msgs)).2.2)
      = chunkMsgKeys msgs ++ l.map keyP := by
  induction l with
  | nil => intro st sess msgs; simp
  | cons p t ih =>
    intro st sess msgs
    rw [List.foldl_cons]
    show chunkMsgKeys ((t.foldl joinStep (joinStep (st, sess, msgs) p)).2.2) = _
    rw [show joinStep (st, sess, msgs) p
        = ((ensureChunk st p.1 p.2).2,
           { sess with sentChunks := setAdd sess.sentChunks (chunkKey p.1 p.2) },
           msgs ++ [Msg.worldChunk p.1 p.2 (ensureChunk st p.1 p.2).1]) from rfl,
      ih, chunkMsgKeys_append]
    simp [chunkMsgKeys, keyP]

theorem moveFold_spec (l : List (ℤ × ℤ)) :
    ∀ (st : GameState) (sess : Session) (msgs : List Msg),
    ((l.map keyP).Nodup) →
    (chunkMsgKeys ((l.foldl moveStep (st, sess, msgs)).2.2)
      = chunkMsgKeys msgs
        ++ (l.map keyP).filter (fun k => decide (k ∉ sess.sentChunks))) ∧
    (∀ k, k ∈ (l.foldl moveStep (st, sess, msgs)).2.1.sentChunks ↔
      k ∈ sess.sentChunks ∨ k ∈ l.map keyP) := by
  induction l with
  | nil =>
    intro st sess msgs _
    simp
  | cons p t ih =>
    intro st sess msgs hnd
    simp only [List.map_cons, List.nodup_cons] at hnd
    rw [List.foldl_cons]
    by_cases hk : chunkKey p.1 p.2 ∈ sess.sentChunks
    · have hstep : moveStep (st, sess, msgs) p = (st, sess, msgs) := by
        unfold moveStep
        rw [if_pos hk]
      rw [hstep]
      obtain ⟨ha, hb⟩ := ih st sess msgs hnd.2
      constructor
      · rw [ha, List.map_cons, List.filter_cons]
        rw [show (decide (keyP p ∉ sess.sentChunks)) = false by
          simp [keyP]; exact hk]
        simp
      · intro k
        rw [hb k, List.map_cons]
        constructor
        · rintro (h | h)
          · exact Or.inl h
          · exact Or.inr (List.mem_cons_of_mem _ h)
        · rintro (h | h)
          · exact Or.inl h
          · rcases List.mem_cons.mp h with h2 | h2
            · exact Or.inl (by rw [h2]; exact hk)
            · exact Or.inr h2
    · have hstep : moveStep (st, sess, msgs) p
        = ((ensureChunk st p.1 p.2).2,
           { sess with sentChunks := setAdd sess.sentChunks (chunkKey p.1 p.2) },
           msgs ++ [Msg.worldChunk p.1 p.2 (ensureChunk st p.1 p.2).1]) := by
        unfold moveStep
        rw [if_neg hk]
      rw [hstep]
      obtain ⟨ha, hb⟩ := ih (ensureChunk st p.1 p.2).2
        { sess with sentChunks := setAdd sess.sentChunks (chunkKey p.1 p.2) }
        (msgs ++ [Msg.worldChunk p.1 p.2 (ensureChunk st p.1 p.2).1]) hnd.2
      have hfc : (t.map keyP).filter
            (fun k => decide (k ∉ setAdd sess.sentChunks (chunkKey p.1 p.2)))
          = (t.map keyP).filter (fun k => decide (k ∉ sess.sentChunks)) := by
        refine List.filter_congr ?_
        intro k hkt
        rw [decide_eq_decide]
        rw [setAdd_mem]
        constructor
        · intro hh hs
          exact hh (Or.inl hs)
        · intro hh hs
          rcases hs with hs | hs
          · exact hh hs
          · rw [hs] at hkt
            exact hnd.1 (by simpa [keyP] using hkt)
      constructor
      · rw [ha, chunkMsgKeys_append, hfc, List.map_cons, List.filter_cons]
        rw [show (decide (keyP p ∉ sess.sentChunks)) = true by
          simp [keyP]; exact hk]
        simp [chunkMsgKeys, keyP]
      · intro k
        rw [hb k]
        show k ∈ setAdd sess.sentChunks (chunkKey p.1 p.2) ∨ _ ↔ _
        rw [setAdd_mem, List.map_cons]
        constructor
        · rintro ((h | h) | h)
          · exact Or.inl h
          · exact Or.inr (by rw [h]; exact List.mem_cons_self _ _)
          · exact Or.inr (List.mem_cons_of_mem _ h)
        · rintro (h | h)
          · exact Or.inl (Or.inl h)
          · rcases List.mem_cons.mp h with h2 | h2
            · exact Or.inl (Or.inr (by rw [h2]; rfl))
            · exact Or.inr h2

/-- C9. Chunk streaming: on world join the server sends exactly the chunks
whose coordinates lie within the fixed Chebyshev render radius 6 of the
spawn point's chunk — the sent keys are precisely those of the ball, with
no key twice; and on movement, every chunk key streamed was not previously
recorded as sent to the session, is recorded afterwards, no key is
streamed twice, and when the containing chunk changed the streamed keys
are exactly the ball keys not already sent. -/
theorem chunk_streaming_spec :
    (∀ (st : GameState) (sess : Session) (a b : ℤ),
      chunkMsgKeys (joinStream st sess).2.2
          = (chebList ⌊sess.pos.1 / 16⌋ ⌊sess.pos.2.2 / 16⌋).map keyP ∧
      (chunkMsgKeys (joinStream st sess).2.2).Nodup ∧
      (chunkKey a b ∈ chunkMsgKeys (joinStream st sess).2.2 ↔
        -6 ≤ a - ⌊sess.pos.1 / 16⌋ ∧ a - ⌊sess.pos.1 / 16⌋ ≤ 6 ∧
        -6 ≤ b - ⌊sess.pos.2.2 / 16⌋ ∧ b - ⌊sess.pos.2.2 / 16⌋ ≤ 6)) ∧
    (∀ (st : GameState) (sess : Session) (x y z : ℚ),
      (∀ k ∈ chunkMsgKeys (actionMove st sess x y z).2.2,
        k ∉ sess.sentChunks ∧ k ∈ (actionMove st sess x y z).2.1.sentChunks) ∧
      (chunkMsgKeys (actionMove st sess x y z).2.2).Nodup ∧
      ((sess.lastCX ≠ some ⌊x / 16⌋ ∨ sess.lastCZ ≠ some ⌊z / 16⌋) →
        chunkMsgKeys (actionMove st sess x y z).2.2
          = ((chebList ⌊x / 16⌋ ⌊z / 16⌋).map keyP).filter
              (fun k => decide (k ∉ sess.sentChunks)))) := by
  constructor
  · intro st sess a b
    have hmsgs : chunkMsgKeys (joinStream st sess).2.2
        = (chebList ⌊sess.pos.1 / 16⌋ ⌊sess.pos.2.2 / 16⌋).map keyP := by
      unfold joinStream
      rw [joinFold_msgs]
      rfl
    refine ⟨hmsgs, hmsgs ▸ chebKeys_nodup _ _, ?_⟩
    rw [hmsgs]
    exact chebKeys_mem _ _ a b
  · intro st sess x y z
    unfold actionMove
    split
    · rename_i hch
      obtain ⟨ha, hb⟩ := moveFold_spec (chebList ⌊x / 16⌋ ⌊z / 16⌋) st
        { sess with pos := (x, y, z), lastCX := some ⌊x / 16⌋, lastCZ := some ⌊z / 16⌋ }
        [] (chebKeys_nodup _ _)
      have hmsgs : chunkMsgKeys (((chebList ⌊x / 16⌋ ⌊z / 16⌋).foldl moveStep
          (st, { sess with pos := (x, y, z), lastCX := some ⌊x / 16⌋, lastCZ := some ⌊z / 16⌋ }, [])).2.2
          ++ [Msg.playerMove sess.accountId (x, y, z)])
          = ((chebList ⌊x / 16⌋ ⌊z / 16⌋).map keyP).filter
              (fun k => decide (k ∉ sess.sentChunks)) := by
        rw [chunkMsgKeys_append, ha]
        simp [chunkMsgKeys]
      refine ⟨?_, ?_, fun _ => hmsgs⟩
      · intro k hkm
        rw [hmsgs] at hkm
        have hmem := List.of_mem_filter hkm
        refine ⟨by simpa using hmem, ?_⟩
        show k ∈ (_ : Session).sentChunks
        rw [hb k]
        exact Or.inr (List.mem_of_mem_filter hkm)
      · rw [hmsgs]
        exact List.Nodup.filter _ (chebKeys_nodup _ _)
    · rename_i hch
      refine ⟨?_, ?_, ?_⟩
      · intro k hkm
        cases hkm
      · exact List.nodup_nil
      · intro hcond
        exact absurd hcond hch

/-- Witness for C9 at a concrete move from an unset last chunk with one
already-sent key. -/
def sessMoveW : Session := ⟨7, (0, 0, 0), 0, 0, [chunkKey 0 0], none, none⟩

theorem chunk_streaming_spec_witness :
    chunkMsgKeys (actionMove stPlace sessMoveW 100 0 0).2.2
      = ((chebList ⌊(100 : ℚ) / 16⌋ ⌊(0 : ℚ) / 16⌋).map keyP).filter
          (fun k => decide (k ∉ sessMoveW.sentChunks)) :=
  (chunk_streaming_spec.2 stPlace sessMoveW 100 0 0).2.2 (by decide)

/-! ## Creature AI (game-server.js MobManager / mob-manager.js)

`Math.sqrt`, `Math.cos`, `Math.sin`, `Math.PI` and the `Math.random`
stream are supplied as an explicit oracle so that every definition stays
computable over `ℚ`; `randomUUID().slice(0, 8)` becomes the `newId`
parameter of the spawn attempt. -/

/-- Ambient JS math/randomness oracle. `rand n` is the value of the n-th
`Math.random()` call; an index into the stream is threaded through the
definitions. -/
structure JsEnv where
  sqrt : ℚ → ℚ
  cos : ℚ → ℚ
  sin : ℚ → ℚ
  rand : ℕ → ℚ
  pi : ℚ

/-- Static per-type record of the `MOB_TYPES` table. -/
structure MobDef where
  name : String
  hostile : Bool
  hp : ℚ
  speed : ℚ
  biomes : Option (List Biome)
  color : ℕ
  width : ℚ
  height : ℚ
  damage : Option ℚ
  aggroRange : Option ℚ
  nightOnly : Bool
deriving Repr, DecidableEq

/-- The `MOB_TYPES` table. -/
def MOB_TYPES : MobType → MobDef
  | .woolly =>
    ⟨"Woolly", false, 10, 1.5, some [.verdantPlains, .frostPeaks], 0xEEDDCC, 0.8, 1.0, none, none, false⟩
  | .glowbug =>
    ⟨"Glowbug", false, 4, 2.5, some [.crystalForest, .mushroomGlades], 0x00FFAA, 0.4, 0.4, none, none, false⟩
  | .frostling =>
    ⟨"Frostling", false, 8, 1.8, some [.frostPeaks], 0xAADDFF, 0.6, 0.8, none, none, false⟩
  | .shroomy =>
    ⟨"Shroomy", false, 6, 1.2, some [.mushroomGlades], 0xCC3366, 0.7, 0.9, none, none, false⟩
  | .lavaSlime =>
    ⟨"Lava Slime", true, 14, 1.0, some [.moltenBadlands], 0xFF4400, 0.9, 0.7, some 3, some 12, false⟩
  | .shadowCreep =>
    ⟨"Shadow Creep", true, 16, 3.0, none, 0x220033, 0.6, 1.6, some 4, some 16, true⟩

/-- Iteration order of `Object.entries(MOB_TYPES)`. -/
def MOB_KEYS : List MobType :=
  [.woolly, .glowbug, .frostling, .shroomy, .lavaSlime, .shadowCreep]

def MAX_MOBS : ℕ := 40
def SPAWN_RADIUS : ℚ := 48
def DESPAWN_RADIUS : ℚ := 80
def SPAWN_INTERVAL : ℕ := 100
def WANDER_INTERVAL : ℤ := 60

/-- One live creature instance. -/
structure Mob where
  id : String
  type : MobType
  pos : ℚ × ℚ × ℚ
  vel : ℚ × ℚ × ℚ
  hp : ℚ
  maxHp : ℚ
  wanderTarget : Option (ℚ × ℚ)
  wanderTimer : ℚ
  idleTimer : ℤ
deriving Repr, DecidableEq

/-- The creature registry and spawn timer of the `MobManager`. -/
structure MobManager where
  mobs : List Mob
  spawnTimer : ℕ
deriving Repr, DecidableEq

/-- Squared horizontal distance between two positions (no oracle). -/
def sqDist (a b : ℚ × ℚ × ℚ) : ℚ :=
  (b.1 - a.1) * (b.1 - a.1) + (b.2.2 - a.2.2) * (b.2.2 - a.2.2)

/-- Horizontal distance as the source computes it,
`Math.sqrt(dx*dx + dz*dz)` via the oracle. -/
def hDist (env : JsEnv) (target from2 : ℚ × ℚ × ℚ) : ℚ :=
  env.sqrt ((target.1 - from2.1) * (target.1 - from2.1)
    + (target.2.2 - from2.2.2) * (target.2.2 - from2.2.2))

/-- Distance of a session from a creature position. -/
def distOf (env : JsEnv) (mobPos : ℚ × ℚ × ℚ) (s : Session) : ℚ :=
  hDist env s.pos mobPos

/-- One step of the nearest-player scan in `_updateHostile` (strict
comparison, so the first of equally near sessions wins). -/
def nearStep (env : JsEnv) (mobPos : ℚ × ℚ × ℚ) (acc : Option (Session × ℚ))
    (s : Session) : Option (Session × ℚ) :=
  match acc with
  | none => some (s, distOf env mobPos s)
  | some (s0, nd) =>
    if distOf env mobPos s < nd then some (s, distOf env mobPos s) else some (s0, nd)

/-- The nearest-player scan of `_updateHostile`. -/
def findNearest (env : JsEnv) (mobPos : ℚ × ℚ × ℚ) (l : List Session) :
    Option (Session × ℚ) :=
  l.foldl (nearStep env mobPos) none

/-- `_isNearAnyPlayer(pos, radius)`: squared-distance comparison, no sqrt. -/
def isNearAnyPlayer (pos : ℚ × ℚ × ℚ) (radius : ℚ) (sessions : List Session) : Bool :=
  sessions.any (fun s =>
    (s.pos.1 - pos.1) * (s.pos.1 - pos.1)
      + (s.pos.2.2 - pos.2.2) * (s.pos.2.2 - pos.2.2) < radius * radius)

/-- Ground scan `_findGround(x, z)`: from `CHUNK_HEIGHT - 2` down to just
above sea level, find solid ground with non-solid, non-water air above;
-1 when none. The chunk reads thread the server state (they may populate
the chunk cache). -/
def findGroundGo (x z : ℤ) : ℕ → ℤ → GameState → ℤ × GameState
  | 0, _, st => (-1, st)
  | fuel + 1, y, st =>
    if y ≤ (SEA_LEVEL : ℤ) then (-1, st)
    else if isSolid (getBlock st x y z).1 = true ∧
        isSolid (getBlock (getBlock st x y z).2 x (y + 1) z).1 = false ∧
        (getBlock (getBlock st x y z).2 x (y + 1) z).1 ≠ WATER then
      (y, (getBlock (getBlock st x y z).2 x (y + 1) z).2)
    else
      findGroundGo x z fuel (y - 1) (getBlock (getBlock st x y z).2 x (y + 1) z).2

def findGround (st : GameState) (x z : ℤ) : ℤ × GameState :=
  findGroundGo x z CHUNK_HEIGHT ((CHUNK_HEIGHT : ℤ) - 2) st

/-- Timer part of `_updatePassive`: increment the idle timer and pick a
fresh random wander target when it expires. Consumes two random draws
when a target is picked. -/
def passiveAfterTimer (env : JsEnv) (mob : Mob) (i : ℕ) : Mob × ℕ :=
  if mob.idleTimer + 1 ≥ WANDER_INTERVAL then
    ({ mob with idleTimer := 0, wanderTarget := some (mob.pos.1 + env.cos (env.rand i * env.pi * 2) * (3 + env.rand (i + 1) * 5), mob.pos.2.2 + env.sin (env.rand i * env.pi * 2) * (3 + env.rand (i + 1) * 5)) },
     i + 2)
  else ({ mob with idleTimer := mob.idleTimer + 1 }, i)

/-- New horizontal position when moving a creature toward `(tx, tz)` with
distance `dist` at `speed * 0.2` per tick. -/
def stepToward (pos : ℚ × ℚ × ℚ) (tx tz dist ms : ℚ) : ℚ × ℚ :=
  (pos.1 + (tx - pos.1) / dist * ms, pos.2.2 + (tz - pos.2.2) / dist * ms)

/-- Movement part of `_updatePassive`: walk toward the wander target,
dropping it on arrival or when no walkable ground exists at the step. -/
def passiveMove (env : JsEnv) (st : GameState) (mob : Mob) (d : MobDef) (i : ℕ) :
    GameState × Mob × List Msg × ℕ :=
  match mob.wanderTarget with
  | none => (st, mob, [], i)
  | some wt =>
    if env.sqrt ((wt.1 - mob.pos.1) * (wt.1 - mob.pos.1)
        + (wt.2 - mob.pos.2.2) * (wt.2 - mob.pos.2.2)) < 0.5 then
      (st, { mob with wanderTarget := none }, [], i)
    else
      if (findGround st
          ⌊(stepToward mob.pos wt.1 wt.2 (env.sqrt ((wt.1 - mob.pos.1) * (wt.1 - mob.pos.1) + (wt.2 - mob.pos.2.2) * (wt.2 - mob.pos.2.2))) (d.speed * 0.2)).1⌋
          ⌊(stepToward mob.pos wt.1 wt.2 (env.sqrt ((wt.1 - mob.pos.1) * (wt.1 - mob.pos.1) + (wt.2 - mob.pos.2.2) * (wt.2 - mob.pos.2.2))) (d.speed * 0.2)).2⌋).1 ≥ 0 then
        ((findGround st
          ⌊(stepToward mob.pos wt.1 wt.2 (env.sqrt ((wt.1 - mob.pos.1) * (wt.1 - mob.pos.1) + (wt.2 - mob.pos.2.2) * (wt.2 - mob.pos.2.2))) (d.speed * 0.2)).1⌋
          ⌊(stepToward mob.pos wt.1 wt.2 (env.sqrt ((wt.1 - mob.pos.1) * (wt.1 - mob.pos.1) + (wt.2 - mob.pos.2.2) * (wt.2 - mob.pos.2.2))) (d.speed * 0.2)).2⌋).2,
         { mob with pos :=
            ((stepToward mob.pos wt.1 wt.2 (env.sqrt ((wt.1 - mob.pos.1) * (wt.1 - mob.pos.1) + (wt.2 - mob.pos.2.2) * (wt.2 - mob.pos.2.2))) (d.speed * 0.2)).1,
             ((findGround st
               ⌊(stepToward mob.pos wt.1 wt.2 (env.sqrt ((wt.1 - mob.pos.1) * (wt.1 - mob.pos.1) + (wt.2 - mob.pos.2.2) * (wt.2 - mob.pos.2.2))) (d.speed * 0.2)).1⌋
               ⌊(stepToward mob.pos wt.1 wt.2 (env.sqrt ((wt.1 - mob.pos.1) * (wt.1 - mob.pos.1) + (wt.2 - mob.pos.2.2) * (wt.2 - mob.pos.2.2))) (d.speed * 0.2)).2⌋).1 + 1 : ℚ),
             (stepToward mob.pos wt.1 wt.2 (env.sqrt ((wt.1 - mob.pos.1) * (wt.1 - mob.pos.1) + (wt.2 - mob.pos.2.2) * (wt.2 - mob.pos.2.2))) (d.speed * 0.2)).2) },
         [Msg.mobMove mob.id
            ((stepToward mob.pos wt.1 wt.2 (env.sqrt ((wt.1 - mob.pos.1) * (wt.1 - mob.pos.1) + (wt.2 - mob.pos.2.2) * (wt.2 - mob.pos.2.2))) (d.speed * 0.2)).1,
             ((findGround st
               ⌊(stepToward mob.pos wt.1 wt.2 (env.sqrt ((wt.1 - mob.pos.1) * (wt.1 - mob.pos.1) + (wt.2 - mob.pos.2.2) * (wt.2 - mob.pos.2.2))) (d.speed * 0.2)).1⌋
               ⌊(stepToward mob.pos wt.1 wt.2 (env.sqrt ((wt.1 - mob.pos.1) * (wt.1 - mob.pos.1) + (wt.2 - mob.pos.2.2) * (wt.2 - mob.pos.2.2))) (d.speed * 0.2)).2⌋).1 + 1 : ℚ),
             (stepToward mob.pos wt.1 wt.2 (env.sqrt ((wt.1 - mob.pos.1) * (wt.1 - mob.pos.1) + (wt.2 - mob.pos.2.2) * (wt.2 - mob.pos.2.2))) (d.speed * 0.2)).2)],
         i)
      else
        ((findGround st
          ⌊(stepToward mob.pos wt.1 wt.2 (env.sqrt ((wt.1 - mob.pos.1) * (wt.1 - mob.pos.1) + (wt.2 - mob.pos.2.2) * (wt.2 - mob.pos.2.2))) (d.speed * 0.2)).1⌋
          ⌊(stepToward mob.pos wt.1 wt.2 (env.sqrt ((wt.1 - mob.pos.1) * (wt.1 - mob.pos.1) + (wt.2 - mob.pos.2.2) * (wt.2 - mob.pos.2.2))) (d.speed * 0.2)).2⌋).2,
         { mob with wanderTarget := none }, [], i)

/-- `_updatePassive`: timer step followed by the wander movement. -/
def updatePassive (env : JsEnv) (st : GameState) (mob : Mob) (d : MobDef) (i : ℕ) :
    GameState × Mob × List Msg × ℕ :=
  passiveMove env st (passiveAfterTimer env mob i).1 d (passiveAfterTimer env mob i).2

/-- New x of the chase step of `_updateHostile`. -/
def chaseNewX (env : JsEnv) (mob : Mob) (nearest : Session) (d : MobDef) : ℚ :=
  mob.pos.1 + (nearest.pos.1 - mob.pos.1) / hDist env nearest.pos mob.pos * (d.speed * 0.2)

/-- New z of the chase step of `_updateHostile`. -/
def chaseNewZ (env : JsEnv) (mob : Mob) (nearest : Session) (d : MobDef) : ℚ :=
  mob.pos.2.2 + (nearest.pos.2.2 - mob.pos.2.2) / hDist env nearest.pos mob.pos * (d.speed * 0.2)

/-- Chase branch of `_updateHostile`: step straight toward the target when
it is more than 1.5 away and walkable ground exists at the step column. -/
def chase (env : JsEnv) (st : GameState) (mob : Mob) (d : MobDef)
    (nearest : Session) (i : ℕ) : GameState × Mob × List Msg × ℕ :=
  if hDist env nearest.pos mob.pos > 1.5 then
    if (findGround st ⌊chaseNewX env mob nearest d⌋ ⌊chaseNewZ env mob nearest d⌋).1 ≥ 0 then
      ((findGround st ⌊chaseNewX env mob nearest d⌋ ⌊chaseNewZ env mob nearest d⌋).2,
       { mob with pos :=
          (chaseNewX env mob nearest d,
           ((findGround st ⌊chaseNewX env mob nearest d⌋ ⌊chaseNewZ env mob nearest d⌋).1 + 1 : ℚ),
           chaseNewZ env mob nearest d) },
       [Msg.mobMove mob.id
          (chaseNewX env mob nearest d,
           ((findGround st ⌊chaseNewX env mob nearest d⌋ ⌊chaseNewZ env mob nearest d⌋).1 + 1 : ℚ),
           chaseNewZ env mob nearest d)],
       i)
    else
      ((findGround st ⌊chaseNewX env mob nearest d⌋ ⌊chaseNewZ env mob nearest d⌋).2, mob, [], i)
  else (st, mob, [], i)

/-- `_updateHostile`: chase the nearest player while inside the aggression
radius (`aggroRange || 12`), else fall back to the passive wander. -/
def updateHostile (env : JsEnv) (st : GameState) (mob : Mob) (d : MobDef) (i : ℕ) :
    GameState × Mob × List Msg × ℕ :=
  match findNearest env mob.pos st.sessions with
  | some (nearest, nearestDist) =>
    if nearestDist < d.aggroRange.getD 12 then chase env st mob d nearest i
    else updatePassive env st mob d i
  | none => updatePassive env st mob d i

/-- `_updateMob`: force-despawn night-only creatures outside night/dusk,
else dispatch to the hostile or passive behavior. -/
def updateMob (env : JsEnv) (st : GameState) (mob : Mob) (phase : DayPhase) (i : ℕ) :
    GameState × Option Mob × List Msg × ℕ :=
  if (MOB_TYPES mob.type).nightOnly = true ∧ phase ≠ DayPhase.night ∧ phase ≠ DayPhase.dusk then
    (st, none, [Msg.mobDespawn mob.id], i)
  else if (MOB_TYPES mob.type).hostile = true then
    ((updateHostile env st mob (MOB_TYPES mob.type) i).1,
     some (updateHostile env st mob (MOB_TYPES mob.type) i).2.1,
     (updateHostile env st mob (MOB_TYPES mob.type) i).2.2.1,
     (updateHostile env st mob (MOB_TYPES mob.type) i).2.2.2)
  else
    ((updatePassive env st mob (MOB_TYPES mob.type) i).1,
     some (updatePassive env st mob (MOB_TYPES mob.type) i).2.1,
     (updatePassive env st mob (MOB_TYPES mob.type) i).2.2.1,
     (updatePassive env st mob (MOB_TYPES mob.type) i).2.2.2)

/-- Candidate filter of `_trySpawn`: exclude night-only types outside
night/dusk; `biomes === null` types spawn anywhere, others need the biome. -/
def spawnCandidate (phase : DayPhase) (biomeId : Biome) (t : MobType) : Bool :=
  if (MOB_TYPES t).nightOnly = true ∧ phase ≠ DayPhase.night ∧ phase ≠ DayPhase.dusk then false
  else
    match (MOB_TYPES t).biomes with
    | none => true
    | some bs => biomeId ∈ bs

/-- The biome-noise fields of the `MobManager` constructor,
`new PerlinNoise(42 + 1000)` and `new PerlinNoise(42 + 2000)`. -/
def mobBiomeT : List ℕ := permTable (42 + 1000)

def mobBiomeM : List ℕ := permTable (42 + 2000)

/-- Spawn x of `_trySpawn` given the chosen session and random draws. -/
def spawnSX (env : JsEnv) (px : ℚ) (i : ℕ) : ℤ :=
  ⌊px + env.cos (env.rand (i + 1) * env.pi * 2) * (20 + env.rand (i + 2) * (SPAWN_RADIUS - 20))⌋

def spawnSZ (env : JsEnv) (pz : ℚ) (i : ℕ) : ℤ :=
  ⌊pz + env.sin (env.rand (i + 1) * env.pi * 2) * (20 + env.rand (i + 2) * (SPAWN_RADIUS - 20))⌋

/-- Candidate list of `_trySpawn` at a spawn column. -/
def spawnCandidates (phase : DayPhase) (sx sz : ℤ) : List MobType :=
  MOB_KEYS.filter (spawnCandidate phase
    (selectBiome (fbm mobBiomeT ((sx : ℚ) / 256) ((sz : ℚ) / 256) 3 2 0.5)
      (fbm mobBiomeM ((sx : ℚ) / 256) ((sz : ℚ) / 256) 3 2 0.5)))

/-- The new creature record of `_trySpawn`. -/
def spawnMob (env : JsEnv) (newId : String) (t : MobType) (sx sy sz : ℤ) (i : ℕ) : Mob :=
  ⟨newId, t, ((sx : ℚ) + 0.5, (sy : ℚ) + 1, (sz : ℚ) + 0.5), (0, 0, 0),
   (MOB_TYPES t).hp, (MOB_TYPES t).hp, none, 0, ⌊env.rand (i + 4) * (WANDER_INTERVAL : ℚ)⌋⟩

/-- Ground resolution and registration tail of `_trySpawn`. -/
def spawnGround (env : JsEnv) (newId : String) (st : GameState) (mm : MobManager)
    (phase : DayPhase) (i : ℕ) (sess : Session) : GameState × MobManager × List Msg × ℕ :=
  if spawnCandidates phase (spawnSX env sess.pos.1 i) (spawnSZ env sess.pos.2.2 i) = [] then
    (st, mm, [], i + 3)
  else
    if (findGround st (spawnSX env sess.pos.1 i) (spawnSZ env sess.pos.2.2 i)).1 < 0 then
      ((findGround st (spawnSX env sess.pos.1 i) (spawnSZ env sess.pos.2.2 i)).2, mm, [], i + 4)
    else
      ((findGround st (spawnSX env sess.pos.1 i) (spawnSZ env sess.pos.2.2 i)).2,
       { mm with mobs := mm.mobs ++
          [spawnMob env newId
            ((spawnCandidates phase (spawnSX env sess.pos.1 i) (spawnSZ env sess.pos.2.2 i)).getD
              (⌊env.rand (i + 3) * ((spawnCandidates phase (spawnSX env sess.pos.1 i) (spawnSZ env sess.pos.2.2 i)).length : ℚ)⌋.toNat)
              ((spawnCandidates phase (spawnSX env sess.pos.1 i) (spawnSZ env sess.pos.2.2 i)).getD 0 MobType.woolly))
            (spawnSX env sess.pos.1 i)
            (findGround st (spawnSX env sess.pos.1 i) (spawnSZ env sess.pos.2.2 i)).1
            (spawnSZ env sess.pos.2.2 i) i] },
       [Msg.mobSpawn newId
          ((spawnCandidates phase (spawnSX env sess.pos.1 i) (spawnSZ env sess.pos.2.2 i)).getD
            (⌊env.rand (i + 3) * ((spawnCandidates phase (spawnSX env sess.pos.1 i) (spawnSZ env sess.pos.2.2 i)).length : ℚ)⌋.toNat)
            ((spawnCandidates phase (spawnSX env sess.pos.1 i) (spawnSZ env sess.pos.2.2 i)).getD 0 MobType.woolly))
          ((spawnSX env sess.pos.1 i : ℚ) + 0.5,
           ((findGround st (spawnSX env sess.pos.1 i) (spawnSZ env sess.pos.2.2 i)).1 : ℚ) + 1,
           (spawnSZ env sess.pos.2.2 i : ℚ) + 0.5)
          (MOB_TYPES ((spawnCandidates phase (spawnSX env sess.pos.1 i) (spawnSZ env sess.pos.2.2 i)).getD
            (⌊env.rand (i + 3) * ((spawnCandidates phase (spawnSX env sess.pos.1 i) (spawnSZ env sess.pos.2.2 i)).length : ℚ)⌋.toNat)
            ((spawnCandidates phase (spawnSX env sess.pos.1 i) (spawnSZ env sess.pos.2.2 i)).getD 0 MobType.woolly))).hp
          (MOB_TYPES ((spawnCandidates phase (spawnSX env sess.pos.1 i) (spawnSZ env sess.pos.2.2 i)).getD
            (⌊env.rand (i + 3) * ((spawnCandidates phase (spawnSX env sess.pos.1 i) (spawnSZ env sess.pos.2.2 i)).length : ℚ)⌋.toNat)
            ((spawnCandidates phase (spawnSX env sess.pos.1 i) (spawnSZ env sess.pos.2.2 i)).getD 0 MobType.woolly))).hp],
       i + 5)

/-- `_trySpawn`: below the cap and with at least one session, pick a random
session, sample a random annulus point around it, resolve the biome, pick a
random eligible type and spawn it on the nearest walkable ground column.
`Math.random()` always lies in [0, 1), so the random indexing stays in
range; the model clamps the list accesses with in-range defaults. -/
def trySpawn (env : JsEnv) (newId : String) (st : GameState) (mm : MobManager)
    (phase : DayPhase) (i : ℕ) : GameState × MobManager × List Msg × ℕ :=
  if MAX_MOBS ≤ mm.mobs.length then (st, mm, [], i)
  else if st.sessions.length = 0 then (st, mm, [], i)
  else
    spawnGround env newId st mm phase i
      (st.sessions.getD (⌊env.rand i * (st.sessions.length : ℚ)⌋.toNat)
        (st.sessions.getD 0 ⟨0, (0, 0, 0), 0, 0, [], none, none⟩))

/-- `MobManager.damageMob(mobId, damage)`: clamp hit points at zero,
broadcast the hurt, and remove plus broadcast a despawn when they reach
zero in the same step. -/
def damageMob (mm : MobManager) (mobId : String) (damage : ℚ) :
    MobManager × List Msg :=
  match mm.mobs.find? (fun m => m.id == mobId) with
  | none => (mm, [])
  | some mob =>
    if max 0 (mob.hp - damage) ≤ 0 then
      ({ mm with mobs := mm.mobs.filter (fun m => m.id != mobId) },
       [Msg.mobHurt mob.id (max 0 (mob.hp - damage)) mob.maxHp, Msg.mobDespawn mob.id])
    else
      ({ mm with mobs := mm.mobs.map (fun m =>
          if m.id == mobId then { m with hp := max 0 (mob.hp - damage) } else m) },
       [Msg.mobHurt mob.id (max 0 (mob.hp - damage)) mob.maxHp])

/-- Per-creature body of the `update` loop: distance-despawn check
followed by the AI update. -/
def mobLoopStep (env : JsEnv) (phase : DayPhase)
    (acc : GameState × List Mob × List Msg × ℕ) (mob : Mob) :
    GameState × List Mob × List Msg × ℕ :=
  if isNearAnyPlayer mob.pos DESPAWN_RADIUS acc.1.sessions = false then
    (acc.1, acc.2.1, acc.2.2.1 ++ [Msg.mobDespawn mob.id], acc.2.2.2)
  else
    ((updateMob env acc.1 mob phase acc.2.2.2).1,
     acc.2.1 ++ ((updateMob env acc.1 mob phase acc.2.2.2).2.1.map (fun m => [m])).getD [],
     acc.2.2.1 ++ (updateMob env acc.1 mob phase acc.2.2.2).2.2.1,
     (updateMob env acc.1 mob phase acc.2.2.2).2.2.2)

/-- The creature iteration of `MobManager.update`. -/
def updateLoop (env : JsEnv) (phase : DayPhase) (st : GameState) (mobs : List Mob)
    (i : ℕ) : GameState × List Mob × List Msg × ℕ :=
  mobs.foldl (mobLoopStep env phase) (st, [], [], i)

/-- Spawn phase of `MobManager.update`: advance the spawn timer, attempting
a spawn when it expires. -/
def spawnPhase (env : JsEnv) (newId : String) (st : GameState) (mm : MobManager)
    (phase : DayPhase) (i : ℕ) : GameState × MobManager × List Msg × ℕ :=
  if SPAWN_INTERVAL ≤ mm.spawnTimer + 1 then
    trySpawn env newId st { mm with spawnTimer := 0 } phase i
  else (st, { mm with spawnTimer := mm.spawnTimer + 1 }, [], i)

/-- One AI tick `MobManager.update(tick, dayPhase)`: spawn attempt, then
the per-creature loop with distance despawn, night-only despawn and
behavior updates. -/
def MobManager.update (env : JsEnv) (newId : String) (st : GameState)
    (mm : MobManager) (phase : DayPhase) (i : ℕ) :
    GameState × MobManager × List Msg × ℕ :=
  ((updateLoop env phase (spawnPhase env newId st mm phase i).1
      (spawnPhase env newId st mm phase i).2.1.mobs
      (spawnPhase env newId st mm phase i).2.2.2).1,
   { mobs := (updateLoop env phase (spawnPhase env newId st mm phase i).1
       (spawnPhase env newId st mm phase i).2.1.mobs
       (spawnPhase env newId st mm phase i).2.2.2).2.1,
     spawnTimer := (spawnPhase env newId st mm phase i).2.1.spawnTimer },
   (spawnPhase env newId st mm phase i).2.2.1
     ++ (updateLoop env phase (spawnPhase env newId st mm phase i).1
       (spawnPhase env newId st mm phase i).2.1.mobs
       (spawnPhase env newId st mm phase i).2.2.2).2.2.1,
   (updateLoop env phase (spawnPhase env newId st mm phase i).1
     (spawnPhase env newId st mm phase i).2.1.mobs
     (spawnPhase env newId st mm phase i).2.2.2).2.2.2)

/-! ### Structure lemmas for the spawn path -/

lemma spawnGround_mobs (env : JsEnv) (newId : String) (st : GameState) (mm : MobManager)
    (phase : DayPhase) (i : ℕ) (sess : Session) :
    (spawnGround env newId st mm phase i sess).2.1.mobs = mm.mobs ∨
    ∃ t sx sy sz j, (spawnGround env newId st mm phase i sess).2.1.mobs
      = mm.mobs ++ [spawnMob env newId t sx sy sz j] := by
  unfold spawnGround
  split
  · exact Or.inl rfl
  · split
    · exact Or.inl rfl
    · exact Or.inr ⟨_, _, _, _, _, rfl⟩

lemma trySpawn_mobs (env : JsEnv) (newId : String) (st : GameState) (mm : MobManager)
    (phase : DayPhase) (i : ℕ) :
    (trySpawn env newId st mm phase i).2.1.mobs = mm.mobs ∨
    ∃ t sx sy sz j, (trySpawn env newId st mm phase i).2.1.mobs
      = mm.mobs ++ [spawnMob env newId t sx sy sz j] := by
  unfold trySpawn
  split
  · exact Or.inl rfl
  · split
    · exact Or.inl rfl
    · exact spawnGround_mobs env newId st mm phase i _

lemma spawnPhase_mobs (env : JsEnv) (newId : String) (st : GameState) (mm : MobManager)
    (phase : DayPhase) (i : ℕ) :
    (spawnPhase env newId st mm phase i).2.1.mobs = mm.mobs ∨
    ∃ t sx sy sz j, (spawnPhase env newId st mm phase i).2.1.mobs
      = mm.mobs ++ [spawnMob env newId t sx sy sz j] := by
  unfold spawnPhase
  split
  · exact trySpawn_mobs env newId st { mm with spawnTimer := 0 } phase i
  · exact Or.inl rfl

lemma mobTypes_hp_pos (t : MobType) : 0 < (MOB_TYPES t).hp := by
  cases t <;> norm_num [MOB_TYPES]

lemma damageMob_none (mm : MobManager) (mobId : String) (dmg : ℚ)
    (h : mm.mobs.find? (fun m => m.id == mobId) = none) :
    damageMob mm mobId dmg = (mm, []) := by
  unfold damageMob; rw [h]

lemma damageMob_some (mm : MobManager) (mobId : String) (dmg : ℚ) (mob : Mob)
    (h : mm.mobs.find? (fun m => m.id == mobId) = some mob) :
    damageMob mm mobId dmg =
    if max 0 (mob.hp - dmg) ≤ 0 then
      ({ mm with mobs := mm.mobs.filter (fun m => m.id != mobId) },
       [Msg.mobHurt mob.id (max 0 (mob.hp - dmg)) mob.maxHp, Msg.mobDespawn mob.id])
    else
      ({ mm with mobs := mm.mobs.map (fun m =>
          if m.id == mobId then { m with hp := max 0 (mob.hp - dmg) } else m) },
       [Msg.mobHurt mob.id (max 0 (mob.hp - dmg)) mob.maxHp]) := by
  unfold damageMob; rw [h]

/-- The registry health invariant: every registered creature has strictly
positive hit points. -/
def MobsHealthy (mm : MobManager) : Prop :=
  ∀ m ∈ mm.mobs, 0 < m.hp

/-- C10: the registry never holds a dead creature. `damageMob` clamps hit
points at zero and removes the creature (broadcasting its despawn) in the
same step whenever they reach zero, and `_trySpawn` only adds creatures at
their type's full (positive) hit points, so both preserve the invariant
that every registered creature has strictly positive hit points. -/
theorem mob_hp_invariant :
    (∀ (mm : MobManager) (mobId : String) (dmg : ℚ),
        MobsHealthy mm → MobsHealthy (damageMob mm mobId dmg).1) ∧
    (∀ (env : JsEnv) (newId : String) (st : GameState) (mm : MobManager)
        (phase : DayPhase) (i : ℕ),
        MobsHealthy mm → MobsHealthy (trySpawn env newId st mm phase i).2.1) := by
  constructor
  · intro mm mobId dmg h m hm
    rcases hfind : mm.mobs.find? (fun m => m.id == mobId) with _ | mob
    · rw [damageMob_none mm mobId dmg hfind] at hm
      exact h m hm
    · rw [damageMob_some mm mobId dmg mob hfind] at hm
      by_cases hle : max 0 (mob.hp - dmg) ≤ 0
      · rw [if_pos hle] at hm
        exact h m (List.mem_of_mem_filter hm)
      · rw [if_neg hle] at hm
        rcases List.mem_map.mp hm with ⟨m0, hm0, hmeq⟩
        by_cases hid : (m0.id == mobId) = true
        · rw [if_pos hid] at hmeq
          subst hmeq
          exact not_le.mp hle
        · rw [if_neg hid] at hmeq
          subst hmeq
          exact h m0 hm0
  · intro env newId st mm phase i h m hm
    rcases trySpawn_mobs env newId st mm phase i with hcase | ⟨t, sx, sy, sz, j, hcase⟩
    · rw [hcase] at hm
      exact h m hm
    · rw [hcase] at hm
      rcases List.mem_append.mp hm with h1 | h1
      · exact h m h1
      · rw [List.mem_singleton] at h1
        subst h1
        exact mobTypes_hp_pos t

/-- Concrete data for the invariant witness. -/
def envZ : JsEnv := ⟨fun _ => 0, fun _ => 0, fun _ => 0, fun _ => 0, 0⟩

def sessC7 : Session := ⟨1, (0, 20, 0), 0, 0, [], none, none⟩

def stC7 : GameState := ⟨WorldGen.init 42, [], [], [sessC7]⟩

def mmW10 : MobManager :=
  ⟨[⟨"m1", MobType.woolly, (0, 0, 0), (0, 0, 0), 10, 10, none, 0, 0⟩], 0⟩

theorem mob_hp_invariant_witness :
    MobsHealthy mmW10 ∧ MobsHealthy (damageMob mmW10 "m1" 3).1 ∧
    MobsHealthy (trySpawn envZ "ab" stC7 mmW10 DayPhase.day 0).2.1 :=
  ⟨(by decide : ∀ m ∈ mmW10.mobs, 0 < m.hp),
   mob_hp_invariant.1 mmW10 "m1" 3 (by decide : ∀ m ∈ mmW10.mobs, 0 < m.hp),
   mob_hp_invariant.2 envZ "ab" stC7 mmW10 DayPhase.day 0
     (by decide : ∀ m ∈ mmW10.mobs, 0 < m.hp)⟩

/-! ### Behavior updates preserve the creature's type -/

lemma passiveAfterTimer_type (env : JsEnv) (mob : Mob) (i : ℕ) :
    ((passiveAfterTimer env mob i).1).type = mob.type := by
  unfold passiveAfterTimer
  split <;> rfl

lemma passiveMove_type (env : JsEnv) (st : GameState) (m : Mob) (d : MobDef) (i : ℕ) :
    ((passiveMove env st m d i).2.1).type = m.type := by
  unfold passiveMove
  split
  · rfl
  · split
    · rfl
    · split <;> rfl

lemma updatePassive_type (env : JsEnv) (st : GameState) (mob : Mob) (d : MobDef) (i : ℕ) :
    ((updatePassive env st mob d i).2.1).type = mob.type := by
  unfold updatePassive
  rw [passiveMove_type, passiveAfterTimer_type]

lemma chase_type (env : JsEnv) (st : GameState) (mob : Mob) (d : MobDef)
    (nearest : Session) (i : ℕ) :
    ((chase env st mob d nearest i).2.1).type = mob.type := by
  unfold chase
  split
  · split <;> rfl
  · rfl

lemma updateHostile_type (env : JsEnv) (st : GameState) (mob : Mob) (d : MobDef) (i : ℕ) :
    ((updateHostile env st mob d i).2.1).type = mob.type := by
  unfold updateHostile
  rcases findNearest env mob.pos st.sessions with _ | ⟨nearest, nearestDist⟩
  · exact updatePassive_type env st mob d i
  · show (if nearestDist < d.aggroRange.getD 12 then chase env st mob d nearest i
        else updatePassive env st mob d i).2.1.type = mob.type
    by_cases hlt : nearestDist < d.aggroRange.getD 12
    · rw [if_pos hlt]
      exact chase_type env st mob d nearest i
    · rw [if_neg hlt]
      exact updatePassive_type env st mob d i

/-- Night-only creatures are despawned by `_updateMob` outside night/dusk. -/
lemma updateMob_nightOnly (env : JsEnv) (st : GameState) (mob : Mob)
    (phase : DayPhase) (i : ℕ)
    (h : (MOB_TYPES mob.type).nightOnly = true ∧ phase ≠ DayPhase.night ∧
      phase ≠ DayPhase.dusk) :
    updateMob env st mob phase i = (st, none, [Msg.mobDespawn mob.id], i) := by
  unfold updateMob
  rw [if_pos h]

/-- Outside the night-only despawn branch, `_updateMob` keeps the creature,
with its type unchanged. -/
lemma updateMob_keeps (env : JsEnv) (st : GameState) (mob : Mob)
    (phase : DayPhase) (i : ℕ)
    (h : ¬((MOB_TYPES mob.type).nightOnly = true ∧ phase ≠ DayPhase.night ∧
      phase ≠ DayPhase.dusk)) :
    ∃ m', (updateMob env st mob phase i).2.1 = some m' ∧ m'.type = mob.type := by
  unfold updateMob
  rw [if_neg h]
  by_cases hh : (MOB_TYPES mob.type).hostile = true
  · rw [if_pos hh]
    exact ⟨_, rfl, updateHostile_type env st mob (MOB_TYPES mob.type) i⟩
  · rw [if_neg hh]
    exact ⟨_, rfl, updatePassive_type env st mob (MOB_TYPES mob.type) i⟩

lemma mobLoopStep_eq (env : JsEnv) (phase : DayPhase) (st : GameState)
    (ms : List Mob) (msgs : List Msg) (i : ℕ) (mob : Mob) :
    mobLoopStep env phase (st, ms, msgs, i) mob =
    if isNearAnyPlayer mob.pos DESPAWN_RADIUS st.sessions = false then
      (st, ms, msgs ++ [Msg.mobDespawn mob.id], i)
    else
      ((updateMob env st mob phase i).1,
       ms ++ ((updateMob env st mob phase i).2.1.map (fun m => [m])).getD [],
       msgs ++ (updateMob env st mob phase i).2.2.1,
       (updateMob env st mob phase i).2.2.2) := rfl

/-- Generalized loop invariant of the `update` creature iteration outside
night/dusk: survivors come from the accumulator or are creatures of a
non-night-only type, accumulated broadcasts are kept, and every night-only
creature of the input list gets a despawn broadcast. -/
lemma updateLoop_go (env : JsEnv) (phase : DayPhase)
    (hph : phase ≠ DayPhase.night ∧ phase ≠ DayPhase.dusk) :
    ∀ (l : List Mob) (st : GameState) (ms : List Mob) (msgs : List Msg) (i : ℕ),
      (∀ m' ∈ (List.foldl (mobLoopStep env phase) (st, ms, msgs, i) l).2.1,
          m' ∈ ms ∨ (MOB_TYPES m'.type).nightOnly = false) ∧
      (∀ x ∈ msgs, x ∈ (List.foldl (mobLoopStep env phase) (st, ms, msgs, i) l).2.2.1) ∧
      (∀ m ∈ l, (MOB_TYPES m.type).nightOnly = true →
          Msg.mobDespawn m.id ∈ (List.foldl (mobLoopStep env phase) (st, ms, msgs, i) l).2.2.1) := by
  intro l
  induction l with
  | nil =>
    intro st ms msgs i
    exact ⟨fun m' hm' => Or.inl hm', fun x hx => hx, fun m hm => absurd hm (List.not_mem_nil m)⟩
  | cons mob t ih =>
    intro st ms msgs i
    rw [List.foldl_cons]
    by_cases hnear : isNearAnyPlayer mob.pos DESPAWN_RADIUS st.sessions = false
    · rw [mobLoopStep_eq, if_pos hnear]
      refine ⟨(ih st ms (msgs ++ [Msg.mobDespawn mob.id]) i).1, ?_, ?_⟩
      · intro x hx
        exact (ih st ms (msgs ++ [Msg.mobDespawn mob.id]) i).2.1 x (List.mem_append_left _ hx)
      · intro m hm hno
        rcases List.mem_cons.mp hm with rfl | hmt
        · exact (ih st ms (msgs ++ [Msg.mobDespawn m.id]) i).2.1 _
            (List.mem_append_right _ (List.mem_singleton.mpr rfl))
        · exact (ih st ms (msgs ++ [Msg.mobDespawn mob.id]) i).2.2 m hmt hno
    · rw [mobLoopStep_eq, if_neg hnear]
      by_cases hno : (MOB_TYPES mob.type).nightOnly = true
      · rw [updateMob_nightOnly env st mob phase i ⟨hno, hph.1, hph.2⟩]
        refine ⟨?_, ?_, ?_⟩
        · intro m' hm'
          rcases (ih st (ms ++ []) (msgs ++ [Msg.mobDespawn mob.id]) i).1 m' hm' with h1 | h1
          · rw [List.append_nil] at h1
            exact Or.inl h1
          · exact Or.inr h1
        · intro x hx
          exact (ih st (ms ++ []) (msgs ++ [Msg.mobDespawn mob.id]) i).2.1 x
            (List.mem_append_left _ hx)
        · intro m hm hno'
          rcases List.mem_cons.mp hm with rfl | hmt
          · exact (ih st (ms ++ []) (msgs ++ [Msg.mobDespawn m.id]) i).2.1 _
              (List.mem_append_right _ (List.mem_singleton.mpr rfl))
          · exact (ih st (ms ++ []) (msgs ++ [Msg.mobDespawn mob.id]) i).2.2 m hmt hno'
      · have hcond : ¬((MOB_TYPES mob.type).nightOnly = true ∧ phase ≠ DayPhase.night ∧
            phase ≠ DayPhase.dusk) := fun hc => hno hc.1
        obtain ⟨m', hsome, htype⟩ := updateMob_keeps env st mob phase i hcond
        rw [hsome]
        refine ⟨?_, ?_, ?_⟩
        · intro m'' hm''
          rcases (ih (updateMob env st mob phase i).1 (ms ++ [m'])
              (msgs ++ (updateMob env st mob phase i).2.2.1)
              (updateMob env st mob phase i).2.2.2).1 m'' hm'' with h1 | h1
          · rcases List.mem_append.mp h1 with h2 | h2
            · exact Or.inl h2
            · rw [List.mem_singleton] at h2
              subst h2
              right
              rw [htype]
              exact Bool.not_eq_true _ ▸ hno
          · exact Or.inr h1
        · intro x hx
          exact (ih (updateMob env st mob phase i).1 (ms ++ [m'])
              (msgs ++ (updateMob env st mob phase i).2.2.1)
              (updateMob env st mob phase i).2.2.2).2.1 x (List.mem_append_left _ hx)
        · intro m hm hno'
          rcases List.mem_cons.mp hm with rfl | hmt
          · exact absurd hno' hno
          · exact (ih (updateMob env st mob phase i).1 (ms ++ [m'])
                (msgs ++ (updateMob env st mob phase i).2.2.1)
                (updateMob env st mob phase i).2.2.2).2.2 m hmt hno'

/-- C8: one AI tick outside night/dusk purges night-only creatures. After
`MobManager.update` runs in a phase other than night or dusk, no creature
of a night-only type remains in the registry, and every night-only
creature that was registered before the tick has a despawn broadcast among
the tick's messages (either from the distance-despawn branch or from the
night-only branch of `_updateMob`). -/
theorem night_only_purge (env : JsEnv) (newId : String) (st : GameState)
    (mm : MobManager) (phase : DayPhase) (i : ℕ)
    (h1 : phase ≠ DayPhase.night) (h2 : phase ≠ DayPhase.dusk) :
    (∀ m' ∈ (MobManager.update env newId st mm phase i).2.1.mobs,
        (MOB_TYPES m'.type).nightOnly = false) ∧
    (∀ m ∈ mm.mobs, (MOB_TYPES m.type).nightOnly = true →
        Msg.mobDespawn m.id ∈ (MobManager.update env newId st mm phase i).2.2.1) := by
  have hmobs : (MobManager.update env newId st mm phase i).2.1.mobs
      = (List.foldl (mobLoopStep env phase)
          ((spawnPhase env newId st mm phase i).1, [], [],
           (spawnPhase env newId st mm phase i).2.2.2)
          (spawnPhase env newId st mm phase i).2.1.mobs).2.1 := rfl
  have hmsgs : (MobManager.update env newId st mm phase i).2.2.1
      = (spawnPhase env newId st mm phase i).2.2.1
        ++ (List.foldl (mobLoopStep env phase)
            ((spawnPhase env newId st mm phase i).1, [], [],
             (spawnPhase env newId st mm phase i).2.2.2)
            (spawnPhase env newId st mm phase i).2.1.mobs).2.2.1 := rfl
  constructor
  · intro m' hm'
    rw [hmobs] at hm'
    rcases (updateLoop_go env phase ⟨h1, h2⟩
        (spawnPhase env newId st mm phase i).2.1.mobs
        (spawnPhase env newId st mm phase i).1 [] []
        (spawnPhase env newId st mm phase i).2.2.2).1 m' hm' with hin | hin
    · exact absurd hin (List.not_mem_nil m')
    · exact hin
  · intro m hm hno
    have hmem : m ∈ (spawnPhase env newId st mm phase i).2.1.mobs := by
      rcases spawnPhase_mobs env newId st mm phase i with hcase | ⟨t, sx, sy, sz, j, hcase⟩
      · rw [hcase]; exact hm
      · rw [hcase]; exact List.mem_append_left _ hm
    rw [hmsgs]
    exact List.mem_append_right _
      ((updateLoop_go env phase ⟨h1, h2⟩
          (spawnPhase env newId st mm phase i).2.1.mobs
          (spawnPhase env newId st mm phase i).1 [] []
          (spawnPhase env newId st mm phase i).2.2.2).2.2 m hmem hno)

theorem night_only_purge_witness :
    (∀ m' ∈ (MobManager.update envZ "ab" stC7 mmW10 DayPhase.day 0).2.1.mobs,
        (MOB_TYPES m'.type).nightOnly = false) ∧
    (∀ m ∈ mmW10.mobs, (MOB_TYPES m.type).nightOnly = true →
        Msg.mobDespawn m.id ∈ (MobManager.update envZ "ab" stC7 mmW10 DayPhase.day 0).2.2.1) :=
  night_only_purge envZ "ab" stC7 mmW10 DayPhase.day 0 (by decide) (by decide)

/-! ### The nearest-player scan -/

lemma some_pair_eq {α β : Type} {a c : α} {b d : β}
    (h : (some (a, b) : Option (α × β)) = some (c, d)) : a = c ∧ b = d := by
  injection h with h1
  exact ⟨congrArg Prod.fst h1, congrArg Prod.snd h1⟩

lemma findNearest_go (env : JsEnv) (mobPos : ℚ × ℚ × ℚ) :
    ∀ (l : List Session) (acc : Option (Session × ℚ)) (s : Session) (d : ℚ),
      List.foldl (nearStep env mobPos) acc l = some (s, d) →
      (acc = some (s, d) ∨ (s ∈ l ∧ d = distOf env mobPos s)) ∧
      (∀ s' ∈ l, d ≤ distOf env mobPos s') ∧
      (∀ p : Session × ℚ, acc = some p → d ≤ p.2) := by
  intro l
  induction l with
  | nil =>
    intro acc s d h
    rw [List.foldl_nil] at h
    refine ⟨Or.inl h, fun s' hs' => absurd hs' (List.not_mem_nil s'), fun p hp => ?_⟩
    rcases p with ⟨p1, p2⟩
    rw [h] at hp
    obtain ⟨_, hd2⟩ := some_pair_eq hp
    exact le_of_eq hd2
  | cons s0 t ih =>
    intro acc s d h
    rw [List.foldl_cons] at h
    rcases acc with _ | ⟨s1, nd⟩
    · have hstep : nearStep env mobPos none s0 = some (s0, distOf env mobPos s0) := rfl
      rw [hstep] at h
      obtain ⟨hA, hB, hC⟩ := ih (some (s0, distOf env mobPos s0)) s d h
      refine ⟨?_, ?_, fun p hp => by cases hp⟩
      · right
        rcases hA with h1 | ⟨h1, h2⟩
        · obtain ⟨hs0, hd0⟩ := some_pair_eq h1
          exact ⟨hs0 ▸ List.mem_cons_self s0 t, hs0 ▸ hd0.symm⟩
        · exact ⟨List.mem_cons_of_mem s0 h1, h2⟩
      · intro s' hs'
        rcases List.mem_cons.mp hs' with rfl | hst
        · exact hC (s', distOf env mobPos s') rfl
        · exact hB s' hst
    · by_cases hlt : distOf env mobPos s0 < nd
      · have hstep : nearStep env mobPos (some (s1, nd)) s0
            = some (s0, distOf env mobPos s0) := by
          unfold nearStep
          show (if distOf env mobPos s0 < nd then some (s0, distOf env mobPos s0)
            else some (s1, nd)) = some (s0, distOf env mobPos s0)
          rw [if_pos hlt]
        rw [hstep] at h
        obtain ⟨hA, hB, hC⟩ := ih (some (s0, distOf env mobPos s0)) s d h
        have hds0 : d ≤ distOf env mobPos s0 := hC (s0, distOf env mobPos s0) rfl
        refine ⟨?_, ?_, ?_⟩
        · right
          rcases hA with h1 | ⟨h1, h2⟩
          · obtain ⟨hs0, hd0⟩ := some_pair_eq h1
            exact ⟨hs0 ▸ List.mem_cons_self s0 t, hs0 ▸ hd0.symm⟩
          · exact ⟨List.mem_cons_of_mem s0 h1, h2⟩
        · intro s' hs'
          rcases List.mem_cons.mp hs' with rfl | hst
          · exact hds0
          · exact hB s' hst
        · intro p hp
          rcases p with ⟨p1, p2⟩
          obtain ⟨_, hd2⟩ := some_pair_eq hp
          calc d ≤ distOf env mobPos s0 := hds0
            _ ≤ nd := le_of_lt hlt
            _ = (p1, p2).2 := hd2
      · have hstep : nearStep env mobPos (some (s1, nd)) s0 = some (s1, nd) := by
          unfold nearStep
          show (if distOf env mobPos s0 < nd then some (s0, distOf env mobPos s0)
            else some (s1, nd)) = some (s1, nd)
          rw [if_neg hlt]
        rw [hstep] at h
        obtain ⟨hA, hB, hC⟩ := ih (some (s1, nd)) s d h
        have hdnd : d ≤ nd := hC (s1, nd) rfl
        refine ⟨?_, ?_, ?_⟩
        · rcases hA with h1 | ⟨h1, h2⟩
          · exact Or.inl h1
          · exact Or.inr ⟨List.mem_cons_of_mem s0 h1, h2⟩
        · intro s' hs'
          rcases List.mem_cons.mp hs' with rfl | hst
          · exact le_trans hdnd (not_lt.mp hlt)
          · exact hB s' hst
        · intro p hp
          rcases p with ⟨p1, p2⟩
          obtain ⟨_, hd2⟩ := some_pair_eq hp
          exact hd2 ▸ hdnd

/-- Specification of the nearest-player scan: the result is a session of
the list at its recorded distance, minimal among all sessions. -/
lemma findNearest_spec (env : JsEnv) (mobPos : ℚ × ℚ × ℚ) (l : List Session)
    (s : Session) (d : ℚ) (h : findNearest env mobPos l = some (s, d)) :
    s ∈ l ∧ d = distOf env mobPos s ∧ ∀ s' ∈ l, d ≤ distOf env mobPos s' := by
  obtain ⟨hA, hB, _⟩ := findNearest_go env mobPos l none s d h
  rcases hA with h1 | ⟨h1, h2⟩
  · cases h1
  · exact ⟨h1, h2, hB⟩

lemma mob_speed_bounds (t : MobType) :
    0 < (MOB_TYPES t).speed ∧ (MOB_TYPES t).speed ≤ 3 := by
  cases t <;> exact ⟨by norm_num [MOB_TYPES], by norm_num [MOB_TYPES]⟩

lemma chase_sq_identity (px pz mx mz D ms : ℚ) :
    (px - (mx + (px - mx) / D * ms)) * (px - (mx + (px - mx) / D * ms))
      + (pz - (mz + (pz - mz) / D * ms)) * (pz - (mz + (pz - mz) / D * ms))
    = (1 - ms / D) * (1 - ms / D)
      * ((px - mx) * (px - mx) + (pz - mz) * (pz - mz)) := by
  ring

/-- C7 (amended): the original claim that a hostile creature inside its
aggression radius always moves strictly closer fails when the creature is
already within 1.5 of the target (and when no walkable ground exists at
the stepped-to column): the chase branch then leaves the position
unchanged. Under those two extra premises it holds: when the square-root
oracle is exact on the session distances, the creature is of a hostile
type, the night-only gate passes, the nearest scan returns a session at
distance `d` with `1.5 < d` inside the aggression radius, and the stepped
column has walkable ground, one `_updateMob` tick keeps the creature and
strictly decreases its squared horizontal distance to that session, which
is moreover a closest one. -/
theorem hostile_chase_approaches (env : JsEnv) (st : GameState) (mob : Mob)
    (phase : DayPhase) (i : ℕ) (s : Session) (d : ℚ)
    (hsq : ∀ s' ∈ st.sessions, 0 ≤ distOf env mob.pos s' ∧
        distOf env mob.pos s' * distOf env mob.pos s' = sqDist mob.pos s'.pos)
    (hhost : (MOB_TYPES mob.type).hostile = true)
    (hnight : (MOB_TYPES mob.type).nightOnly = true →
        phase = DayPhase.night ∨ phase = DayPhase.dusk)
    (hfind : findNearest env mob.pos st.sessions = some (s, d))
    (haggro : d < (MOB_TYPES mob.type).aggroRange.getD 12)
    (hfar : d > 1.5)
    (hground : (findGround st ⌊chaseNewX env mob s (MOB_TYPES mob.type)⌋
        ⌊chaseNewZ env mob s (MOB_TYPES mob.type)⌋).1 ≥ 0) :
    ∃ m', (updateMob env st mob phase i).2.1 = some m' ∧
      sqDist m'.pos s.pos < sqDist mob.pos s.pos ∧
      ∀ s' ∈ st.sessions, sqDist mob.pos s.pos ≤ sqDist mob.pos s'.pos := by
  obtain ⟨hsmem, hdeq, hmin⟩ := findNearest_spec env mob.pos st.sessions s d hfind
  obtain ⟨hd0, hdsq⟩ := hsq s hsmem
  have hcond : ¬((MOB_TYPES mob.type).nightOnly = true ∧ phase ≠ DayPhase.night ∧
      phase ≠ DayPhase.dusk) := by
    rintro ⟨ha, hb, hc⟩
    rcases hnight ha with h | h
    · exact hb h
    · exact hc h
  have hgt : hDist env s.pos mob.pos > 1.5 := by
    have h' : distOf env mob.pos s > 1.5 := by rw [← hdeq]; exact hfar
    exact h'
  have hchase : chase env st mob (MOB_TYPES mob.type) s i
      = ((findGround st ⌊chaseNewX env mob s (MOB_TYPES mob.type)⌋
            ⌊chaseNewZ env mob s (MOB_TYPES mob.type)⌋).2,
         { mob with pos := (chaseNewX env mob s (MOB_TYPES mob.type),
            ((findGround st ⌊chaseNewX env mob s (MOB_TYPES mob.type)⌋
              ⌊chaseNewZ env mob s (MOB_TYPES mob.type)⌋).1 + 1 : ℚ),
            chaseNewZ env mob s (MOB_TYPES mob.type)) },
         [Msg.mobMove mob.id (chaseNewX env mob s (MOB_TYPES mob.type),
            ((findGround st ⌊chaseNewX env mob s (MOB_TYPES mob.type)⌋
              ⌊chaseNewZ env mob s (MOB_TYPES mob.type)⌋).1 + 1 : ℚ),
            chaseNewZ env mob s (MOB_TYPES mob.type))],
         i) := by
    unfold chase
    rw [if_pos hgt, if_pos hground]
  have hhost2 : updateHostile env st mob (MOB_TYPES mob.type) i
      = chase env st mob (MOB_TYPES mob.type) s i := by
    unfold updateHostile
    rw [hfind]
    show (if d < (MOB_TYPES mob.type).aggroRange.getD 12
        then chase env st mob (MOB_TYPES mob.type) s i
        else updatePassive env st mob (MOB_TYPES mob.type) i)
      = chase env st mob (MOB_TYPES mob.type) s i
    rw [if_pos haggro]
  have hupd : (updateMob env st mob phase i).2.1
      = some (chase env st mob (MOB_TYPES mob.type) s i).2.1 := by
    unfold updateMob
    rw [if_neg hcond, if_pos hhost, hhost2]
  refine ⟨(chase env st mob (MOB_TYPES mob.type) s i).2.1, hupd, ?_, ?_⟩
  · have hpos : ((chase env st mob (MOB_TYPES mob.type) s i).2.1).pos
        = (chaseNewX env mob s (MOB_TYPES mob.type),
           ((findGround st ⌊chaseNewX env mob s (MOB_TYPES mob.type)⌋
             ⌊chaseNewZ env mob s (MOB_TYPES mob.type)⌋).1 + 1 : ℚ),
           chaseNewZ env mob s (MOB_TYPES mob.type)) := by
      rw [hchase]
    have hms := mob_speed_bounds mob.type
    have hD0 : (0:ℚ) < hDist env s.pos mob.pos := lt_trans (by norm_num) hgt
    have hms0 : 0 < (MOB_TYPES mob.type).speed * 0.2 := by nlinarith [hms.1]
    have hmslt : (MOB_TYPES mob.type).speed * 0.2 < hDist env s.pos mob.pos := by
      nlinarith [hms.2, hgt]
    have hr0 : 0 < (MOB_TYPES mob.type).speed * 0.2 / hDist env s.pos mob.pos :=
      div_pos hms0 hD0
    have hr1 : (MOB_TYPES mob.type).speed * 0.2 / hDist env s.pos mob.pos < 1 :=
      (div_lt_one hD0).mpr hmslt
    have hdsq2 : hDist env s.pos mob.pos * hDist env s.pos mob.pos
        = sqDist mob.pos s.pos := hdsq
    have hS0 : 0 < sqDist mob.pos s.pos := by
      rw [← hdsq2]
      exact mul_pos hD0 hD0
    have hident : sqDist (chaseNewX env mob s (MOB_TYPES mob.type),
        ((findGround st ⌊chaseNewX env mob s (MOB_TYPES mob.type)⌋
          ⌊chaseNewZ env mob s (MOB_TYPES mob.type)⌋).1 + 1 : ℚ),
        chaseNewZ env mob s (MOB_TYPES mob.type)) s.pos
        = (1 - (MOB_TYPES mob.type).speed * 0.2 / hDist env s.pos mob.pos)
          * (1 - (MOB_TYPES mob.type).speed * 0.2 / hDist env s.pos mob.pos)
          * sqDist mob.pos s.pos := by
      simp only [sqDist, chaseNewX, chaseNewZ]
      ring
    rw [hpos, hident]
    have h2r : 0 < 2 - (MOB_TYPES mob.type).speed * 0.2 / hDist env s.pos mob.pos := by
      linarith
    nlinarith [mul_pos hS0 (mul_pos hr0 h2r)]
  · intro s' hs'
    have h1 := hmin s' hs'
    obtain ⟨hd0', hdsq'⟩ := hsq s' hs'
    have hDnn : 0 ≤ d := hdeq ▸ hd0
    calc sqDist mob.pos s.pos
        = distOf env mob.pos s * distOf env mob.pos s := hdsq.symm
      _ = d * d := by rw [← hdeq]
      _ ≤ distOf env mob.pos s' * distOf env mob.pos s' :=
          mul_le_mul h1 h1 hDnn (le_trans hDnn h1)
      _ = sqDist mob.pos s'.pos := hdsq'

/-- Hostile creature sitting exactly at the nearest session's horizontal
position: inside the aggression radius, yet the chase step is skipped. -/
def mobC7 : Mob := ⟨"cs", MobType.lavaSlime, (0, 30, 0), (0, 0, 0), 14, 14, none, 0, 0⟩

/-- C7 counterexample: a hostile creature (lava slime) whose horizontal
distance to the nearest joined session is 0 — strictly inside its
aggression radius of 12 — is NOT moved strictly closer by one AI tick:
`_updateHostile` only steps while the distance exceeds 1.5, so the
creature's position is unchanged and the claimed strict approach fails. -/
theorem hostile_chase_counterexample :
    (MOB_TYPES mobC7.type).hostile = true ∧
    findNearest envZ mobC7.pos stC7.sessions = some (sessC7, 0) ∧
    sqDist mobC7.pos sessC7.pos
      < (MOB_TYPES mobC7.type).aggroRange.getD 12
        * (MOB_TYPES mobC7.type).aggroRange.getD 12 ∧
    (updateMob envZ stC7 mobC7 DayPhase.day 0).2.1 = some mobC7 ∧
    ¬ sqDist mobC7.pos sessC7.pos < sqDist mobC7.pos sessC7.pos := by
  refine ⟨rfl, rfl, ?_, ?_, lt_irrefl _⟩
  · norm_num [sqDist, mobC7, sessC7, MOB_TYPES]
  · have hcond : ¬((MOB_TYPES mobC7.type).nightOnly = true ∧
        DayPhase.day ≠ DayPhase.night ∧ DayPhase.day ≠ DayPhase.dusk) := by
      rintro ⟨h, _, _⟩
      exact absurd h (by decide)
    have hhost2 : updateHostile envZ stC7 mobC7 (MOB_TYPES mobC7.type) 0
        = chase envZ stC7 mobC7 (MOB_TYPES mobC7.type) sessC7 0 := by
      unfold updateHostile
      rw [show findNearest envZ mobC7.pos stC7.sessions = some (sessC7, 0) from rfl]
      show (if (0:ℚ) < (MOB_TYPES mobC7.type).aggroRange.getD 12
          then chase envZ stC7 mobC7 (MOB_TYPES mobC7.type) sessC7 0
          else updatePassive envZ stC7 mobC7 (MOB_TYPES mobC7.type) 0)
        = chase envZ stC7 mobC7 (MOB_TYPES mobC7.type) sessC7 0
      rw [if_pos (by norm_num [MOB_TYPES, mobC7])]
    have hchase : chase envZ stC7 mobC7 (MOB_TYPES mobC7.type) sessC7 0
        = (stC7, mobC7, [], 0) := by
      unfold chase
      rw [if_neg (show ¬ hDist envZ sessC7.pos mobC7.pos > 1.5 by
        show ¬ (0:ℚ) > 1.5
        norm_num)]
    unfold updateMob
    rw [if_neg hcond, if_pos (show (MOB_TYPES mobC7.type).hostile = true from rfl),
      hhost2, hchase]

/-- Environment and state for the amended chase witness: the square-root
oracle is exact at the one queried input, and chunk (0,0) is pre-cached
with solid ground up to y = 61 and air above. -/
def envW7 : JsEnv := ⟨fun q => if q = 16 then 4 else 0, fun _ => 0, fun _ => 0, fun _ => 0, 0⟩

def sessW7 : Session := ⟨2, (4, 62, 0), 0, 0, [], none, none⟩

def mobW7 : Mob := ⟨"ls", MobType.lavaSlime, (0, 62, 0), (0, 0, 0), 14, 14, none, 0, 0⟩

def chunkW7 : List ℕ := (List.range 16384).map (fun idx => if idx / 256 ≤ 61 then STONE else AIR)

def stW7 : GameState := ⟨WorldGen.init 42, [(chunkKey 0 0, chunkW7)], [], [sessW7]⟩

lemma chunkW7_getD (i : ℕ) (h : i < 16384) :
    chunkW7.getD i 0 = if i / 256 ≤ 61 then STONE else AIR := by
  unfold chunkW7
  rw [List.getD_eq_getElem?_getD, List.getElem?_map, List.getElem?_range h]
  rfl

lemma mapGet_cons_self {α : Type} (k : String) (v : α) (t : List (String × α)) :
    mapGet ((k, v) :: t) k = some v := by
  unfold mapGet
  rw [if_pos rfl]

lemma stW7_block (y : ℤ) (h0 : 0 ≤ y) (h1 : y < 64) :
    getBlock stW7 0 y 0 = ((if y ≤ 61 then STONE else AIR), stW7) := by
  unfold getBlock
  rw [if_neg (by simp only [CHUNK_HEIGHT]; omega)]
  have hmg : mapGet stW7.chunks (chunkKey (worldToChunk 0) (worldToChunk 0)) = some chunkW7 := by
    show mapGet ((chunkKey 0 0, chunkW7) :: []) (chunkKey (worldToChunk 0) (worldToChunk 0))
      = some chunkW7
    rw [show chunkKey (worldToChunk 0) (worldToChunk 0) = chunkKey 0 0 from rfl]
    exact mapGet_cons_self (chunkKey 0 0) chunkW7 []
  have hens : ensureChunk stW7 (worldToChunk 0) (worldToChunk 0) = (chunkW7, stW7) := by
    unfold ensureChunk
    rw [hmg]
  rw [hens]
  have hidx : ((y * 16 + worldToLocal 0) * 16 + worldToLocal 0).toNat = y.toNat * 256 := by
    rw [show worldToLocal 0 = 0 from rfl]
    omega
  rw [hidx, chunkW7_getD (y.toNat * 256) (by omega)]
  have h256 : y.toNat * 256 / 256 = y.toNat := by omega
  rw [h256]
  by_cases hy : y ≤ 61
  · rw [if_pos (by omega : y.toNat ≤ 61), if_pos hy]
  · rw [if_neg (by omega : ¬ y.toNat ≤ 61), if_neg hy]

lemma findGroundGo_succ (x z : ℤ) (fuel : ℕ) (y : ℤ) (st : GameState) :
    findGroundGo x z (fuel + 1) y st =
    if y ≤ (SEA_LEVEL : ℤ) then (-1, st)
    else if isSolid (getBlock st x y z).1 = true ∧
        isSolid (getBlock (getBlock st x y z).2 x (y + 1) z).1 = false ∧
        (getBlock (getBlock st x y z).2 x (y + 1) z).1 ≠ WATER then
      (y, (getBlock (getBlock st x y z).2 x (y + 1) z).2)
    else
      findGroundGo x z fuel (y - 1) (getBlock (getBlock st x y z).2 x (y + 1) z).2 := rfl

lemma stW7_ground : (findGround stW7 0 0).1 = 61 := by
  have hb62 : getBlock stW7 0 62 0 = (AIR, stW7) := by
    rw [stW7_block 62 (by norm_num) (by norm_num), if_neg (by norm_num : ¬ (62:ℤ) ≤ 61)]
  have hb63 : getBlock stW7 0 (62 + 1) 0 = (AIR, stW7) := by
    rw [show ((62:ℤ) + 1) = 63 from rfl]
    rw [stW7_block 63 (by norm_num) (by norm_num), if_neg (by norm_num : ¬ (63:ℤ) ≤ 61)]
  have hb61 : getBlock stW7 0 61 0 = (STONE, stW7) := by
    rw [stW7_block 61 (by norm_num) (by norm_num), if_pos (by norm_num : (61:ℤ) ≤ 61)]
  have hb62b : getBlock stW7 0 (61 + 1) 0 = (AIR, stW7) := by
    rw [show ((61:ℤ) + 1) = 62 from rfl]
    exact hb62
  have hcond62 : ¬(isSolid (getBlock stW7 0 62 0).1 = true ∧
      isSolid (getBlock (getBlock stW7 0 62 0).2 0 (62 + 1) 0).1 = false ∧
      (getBlock (getBlock stW7 0 62 0).2 0 (62 + 1) 0).1 ≠ WATER) := by
    intro hcc
    have h1 := hcc.1
    rw [hb62] at h1
    exact absurd h1 (by decide)
  have hcond61 : isSolid (getBlock stW7 0 61 0).1 = true ∧
      isSolid (getBlock (getBlock stW7 0 61 0).2 0 (61 + 1) 0).1 = false ∧
      (getBlock (getBlock stW7 0 61 0).2 0 (61 + 1) 0).1 ≠ WATER := by
    rw [hb61]
    dsimp only
    rw [hb62b]
    refine ⟨by decide, by decide, by decide⟩
  show (findGroundGo 0 0 64 62 stW7).1 = 61
  rw [show (64:ℕ) = 63 + 1 from rfl, findGroundGo_succ]
  rw [if_neg (by norm_num [SEA_LEVEL] : ¬ ((62:ℤ) ≤ (SEA_LEVEL : ℤ))), if_neg hcond62]
  rw [hb62]
  dsimp only
  rw [hb63]
  dsimp only
  rw [show ((62:ℤ) - 1) = 61 from rfl]
  rw [show (63:ℕ) = 62 + 1 from rfl, findGroundGo_succ]
  rw [if_neg (by norm_num [SEA_LEVEL] : ¬ ((61:ℤ) ≤ (SEA_LEVEL : ℤ))), if_pos hcond61]

theorem hostile_chase_approaches_witness :
    ∃ m', (updateMob envW7 stW7 mobW7 DayPhase.day 0).2.1 = some m' ∧
      sqDist m'.pos sessW7.pos < sqDist mobW7.pos sessW7.pos ∧
      ∀ s' ∈ stW7.sessions, sqDist mobW7.pos sessW7.pos ≤ sqDist mobW7.pos s'.pos := by
  have hx : chaseNewX envW7 mobW7 sessW7 (MOB_TYPES mobW7.type) = 1/5 := by
    simp only [chaseNewX, hDist, envW7, mobW7, sessW7, MOB_TYPES]
    norm_num
  have hz : chaseNewZ envW7 mobW7 sessW7 (MOB_TYPES mobW7.type) = 0 := by
    simp only [chaseNewZ, hDist, envW7, mobW7, sessW7, MOB_TYPES]
    norm_num
  have hfx : ⌊chaseNewX envW7 mobW7 sessW7 (MOB_TYPES mobW7.type)⌋ = 0 := by
    rw [hx]
    norm_num
  have hfz : ⌊chaseNewZ envW7 mobW7 sessW7 (MOB_TYPES mobW7.type)⌋ = 0 := by
    rw [hz]
    norm_num
  have hg : (findGround stW7 0 0).1 = 61 := stW7_ground
  refine hostile_chase_approaches envW7 stW7 mobW7 DayPhase.day 0 sessW7 4
    ?_ rfl (fun h => absurd h (by decide)) ?_ ?_ (by norm_num) ?_
  · intro s' hs'
    rw [show s' ∈ stW7.sessions ↔ s' = sessW7 from List.mem_singleton] at hs'
    subst hs'
    constructor
    · show (0:ℚ) ≤ distOf envW7 mobW7.pos sessW7
      simp only [distOf, hDist, envW7, mobW7, sessW7]
      norm_num
    · show distOf envW7 mobW7.pos sessW7 * distOf envW7 mobW7.pos sessW7
        = sqDist mobW7.pos sessW7.pos
      simp only [distOf, hDist, sqDist, envW7, mobW7, sessW7]
      norm_num
  · show findNearest envW7 mobW7.pos stW7.sessions = some (sessW7, 4)
    show nearStep envW7 mobW7.pos none sessW7 = some (sessW7, 4)
    unfold nearStep
    simp only [distOf, hDist, envW7, mobW7, sessW7]
    norm_num
  · norm_num [MOB_TYPES, mobW7]
  · rw [hfx, hfz, hg]
    norm_num

end MoltMine
